import Mathlib

/-!
Verification of the time-tracker entry lifecycle and report aggregation.

The definitions below are a shallow embedding of the program:
* the `entries` SQLite table is modelled as a list of `Entry` rows held in
  rowid (insertion) order, together with the next AUTOINCREMENT id;
* the `/api/clock-in`, `/api/clock-out` and `/api/toggle` request handlers
  become pure functions from a store (plus the client-resolved `today`,
  `now`, `timezone` and `comment` request values) to an updated store and a
  response;
* the Excel report builder (`ExcelReport._getMonthsInRange`,
  `ExcelReport._createMonthSheet`) becomes pure list-producing functions.

JavaScript truthiness of nullable TEXT columns (`null` and `""` are falsy)
is modelled explicitly by `truthy`.
-/

namespace TimeTracker

/-- JavaScript truthiness of a nullable string value (SQLite TEXT column as
returned by better-sqlite3: `NULL` becomes `none`).  `null` and the empty
string are falsy, every other string is truthy. -/
def truthy : Option String → Bool
  | none => false
  | some s => !(s == "")

/-- JavaScript `x || null` applied to a nullable string: the empty string is
collapsed to `null`. -/
def orNull : Option String → Option String
  | none => none
  | some s => if s == "" then none else some s

/-- SQL `COALESCE(a, b)`: the first non-NULL argument. -/
def sqlCoalesce : Option String → Option String → Option String
  | some v, _ => some v
  | none, b => b

/-- Lexicographic strict comparison of character lists by code point.  On
the ASCII `YYYY-MM-DD` date strings of this program it coincides with
SQLite's byte-wise BINARY collation for TEXT. -/
def charsLt : List Char → List Char → Bool
  | _, [] => false
  | [], _ :: _ => true
  | a :: as, b :: bs =>
      if a.toNat < b.toNat then true
      else if b.toNat < a.toNat then false
      else charsLt as bs

/-- SQLite `a < b` on TEXT values. -/
def strLt (a b : String) : Bool :=
  charsLt a.data b.data

/-- SQLite `a <= b` on TEXT values. -/
def strLe (a b : String) : Bool :=
  !charsLt b.data a.data

/-- One row of the `entries` table.  `check_in`/`check_out` are `HH:MM`
time-of-day strings, `date` is a `YYYY-MM-DD` string. -/
structure Entry where
  id : Nat
  user_id : Nat
  date : String
  check_in : Option String
  check_out : Option String
  comment : Option String
  timezone : Option String
  deriving Repr, DecidableEq

/-- The `entries` table: rows in rowid (insertion) order plus the next
AUTOINCREMENT id. -/
structure Store where
  entries : List Entry
  nextId : Nat
  deriving Repr, DecidableEq

/-- A database with no entries yet. -/
def emptyStore : Store := { entries := [], nextId := 1 }

/-- The `WHERE user_id = ? AND date = ?` filter. -/
def entryMatches (u : Nat) (d : String) (e : Entry) : Bool :=
  e.user_id == u && e.date == d

/-- The query `SELECT * FROM entries WHERE user_id = ? AND date = ? ORDER BY
id DESC LIMIT 1`.  Rows are held in rowid order, so the row with the greatest id is
the last matching row of the list. -/
def latestEntry (s : Store) (u : Nat) (d : String) : Option Entry :=
  (s.entries.filter (entryMatches u d)).getLast?

/-- The row built by `INSERT INTO entries (user_id, date, check_in, timezone)
VALUES (?, ?, ?, ?)`: `check_out` and `comment` default to NULL. -/
def newEntry (s : Store) (u : Nat) (d now : String) (tz : Option String) : Entry :=
  { id := s.nextId, user_id := u, date := d, check_in := some now,
    check_out := none, comment := none, timezone := tz }

/-- Run the insert; the second component is `result.lastInsertRowid`. -/
def insertEntry (s : Store) (u : Nat) (d now : String) (tz : Option String) :
    Store × Nat :=
  ({ entries := s.entries ++ [newEntry s u d now tz], nextId := s.nextId + 1 },
   s.nextId)

/-- The effect of `UPDATE ... WHERE id = ? AND user_id = ?` on one row:
apply the SET clause `f` when the WHERE clause matches. -/
def applyUpd (i u : Nat) (f : Entry → Entry) (e : Entry) : Entry :=
  if e.id == i && e.user_id == u then f e else e

/-- The statement `UPDATE entries SET ... WHERE id = ? AND user_id = ?`, with `f` the
field assignment of the SET clause. -/
def updateById (s : Store) (i u : Nat) (f : Entry → Entry) : Store :=
  { entries := s.entries.map (applyUpd i u f), nextId := s.nextId }

/-- The error responses the three lifecycle handlers can produce. -/
inductive ApiError
  | alreadyClockedIn
  | notClockedIn
  | alreadyClockedOut
  | unknownState
  deriving Repr, DecidableEq

/-- Response of a successful `/api/clock-in`: `{ success, id, time }`. -/
structure ClockInResp where
  id : Nat
  time : String
  deriving Repr, DecidableEq

/-- The `/api/clock-in` handler, from the point where `today`, `now` and the
request `timezone` have been resolved.  Reads the latest entry for
`(user, today)`; rejects when it is open (truthy `check_in`, falsy
`check_out`); otherwise inserts a fresh entry. -/
def clockIn (s : Store) (u : Nat) (today now : String) (timezone : Option String) :
    Store × Except ApiError ClockInResp :=
  let tz := orNull timezone
  match latestEntry s u today with
  | some existing =>
      if truthy existing.check_in && !truthy existing.check_out then
        (s, Except.error ApiError.alreadyClockedIn)
      else
        let r := insertEntry s u today now tz
        (r.1, Except.ok { id := r.2, time := now })
  | none =>
      let r := insertEntry s u today now tz
      (r.1, Except.ok { id := r.2, time := now })

/-- Response of a successful `/api/clock-out`: `{ success, time }`. -/
structure ClockOutResp where
  time : String
  deriving Repr, DecidableEq

/-- The `/api/clock-out` handler.  Reads the latest entry for
`(user, today)`; `Not clocked in` when there is none or its `check_in` is
falsy, `Already clocked out` when its `check_out` is truthy; otherwise sets
`check_out`, `comment` and `timezone = COALESCE(timezone, ?)` on that row. -/
def clockOut (s : Store) (u : Nat) (today now : String)
    (timezone comment : Option String) : Store × Except ApiError ClockOutResp :=
  match latestEntry s u today with
  | none => (s, Except.error ApiError.notClockedIn)
  | some entry =>
      if !truthy entry.check_in then
        (s, Except.error ApiError.notClockedIn)
      else if truthy entry.check_out then
        (s, Except.error ApiError.alreadyClockedOut)
      else
        let s' := updateById s entry.id u (fun e =>
          { e with check_out := some now, comment := orNull comment,
                   timezone := sqlCoalesce e.timezone (orNull timezone) })
        (s', Except.ok { time := now })

/-- The filter of `SELECT comment, date FROM entries WHERE user_id = ? AND
comment IS NOT NULL AND comment != '' ...` row filter. -/
def hasComment (u : Nat) (e : Entry) : Bool :=
  e.user_id == u &&
    (match e.comment with
     | some c => !(c == "")
     | none => false)

/-- Of two rows, the one that sorts first under `ORDER BY date DESC, id
DESC` (dates are `YYYY-MM-DD` strings, compared lexicographically exactly as
SQLite compares TEXT). -/
def pickLater (a b : Entry) : Entry :=
  if strLt a.date b.date then b
  else if a.date = b.date ∧ a.id < b.id then b
  else a

/-- The `ORDER BY date DESC, id DESC LIMIT 1` query for the most recent
commented entry of a user. -/
def lastCommentEntry (s : Store) (u : Nat) : Option Entry :=
  match s.entries.filter (hasComment u) with
  | [] => none
  | e :: es => some (es.foldl pickLater e)

/-- The value of a decimal digit character. -/
def digitVal (c : Char) : Option Nat :=
  if 48 ≤ c.toNat ∧ c.toNat ≤ 57 then some (c.toNat - 48) else none

/-- Read a nonempty all-digit character list as a decimal number. -/
def decimalNat (cs : List Char) : Option Nat :=
  match cs with
  | [] => none
  | _ =>
      cs.foldl (fun acc c => acc.bind fun a => (digitVal c).map fun dv => a * 10 + dv)
        (some 0)

/-- JavaScript `Number(s)` restricted to the decimal digit strings that occur in the
`HH:MM` values split on `:` (the only inputs the handlers feed it). -/
def jsNumberChars (cs : List Char) : Int :=
  match decimalNat cs with
  | some n => Int.ofNat n
  | none => 0

/-- JavaScript `s.split(sep)` on the underlying character list. -/
def splitOnChar (sep : Char) : List Char → List (List Char)
  | [] => [[]]
  | c :: cs =>
      match splitOnChar sep cs with
      | [] => [[]]
      | g :: gs => if c = sep then [] :: g :: gs else (c :: g) :: gs

/-- The destructuring `const [h, m] = t.split(':').map(Number)` for an `HH:MM` string. -/
def parseHM (t : String) : Int × Int :=
  match splitOnChar ':' t.data with
  | h :: m :: _ => (jsNumberChars h, jsNumberChars m)
  | _ => (0, 0)

/-- The minute difference `(outH * 60 + outM) - (inH * 60 + inM)`. -/
def totalMinutes (checkIn checkOut : String) : Int :=
  let pin := parseHM checkIn
  let pout := parseHM checkOut
  (pout.1 * 60 + pout.2) - (pin.1 * 60 + pin.2)

/-- The toggle duration string.  `Math.floor(totalMinutes / 60)` is floor
division; JavaScript `totalMinutes % 60` is the remainder that takes the
sign of the dividend, i.e. `Int.tmod`. -/
def durationHM (checkIn checkOut : String) : String :=
  let tm := totalMinutes checkIn checkOut
  toString (Int.fdiv tm 60) ++ "h " ++ toString (Int.tmod tm 60) ++ "m"

/-- The `/api/toggle` JSON response (fields absent in a branch are `none`). -/
structure ToggleResp where
  action : String
  time : String
  entryId : Nat
  checkIn : Option String
  checkOut : Option String
  duration : Option String
  lastComment : Option String
  lastCommentDate : Option String
  deriving Repr, DecidableEq

/-- The `/api/toggle` handler.  No entry today or the latest is checked out:
insert and answer `check-in` (with the carried-over last comment, queried
after the insert as in the source).  Latest checked in but not out: set
`check_out` and coalesce `timezone`, answer `check-out` with the duration.
Otherwise: `Unknown state`. -/
def toggle (s : Store) (u : Nat) (today now : String) (timezone : Option String) :
    Store × Except ApiError ToggleResp :=
  let tz := orNull timezone
  match latestEntry s u today with
  | none =>
      let r := insertEntry s u today now tz
      let lc := lastCommentEntry r.1 u
      (r.1, Except.ok { action := "check-in", time := now, entryId := r.2,
                        checkIn := none, checkOut := none, duration := none,
                        lastComment := lc.bind Entry.comment,
                        lastCommentDate := lc.map Entry.date })
  | some entry =>
      if truthy entry.check_out then
        let r := insertEntry s u today now tz
        let lc := lastCommentEntry r.1 u
        (r.1, Except.ok { action := "check-in", time := now, entryId := r.2,
                          checkIn := none, checkOut := none, duration := none,
                          lastComment := lc.bind Entry.comment,
                          lastCommentDate := lc.map Entry.date })
      else if truthy entry.check_in && !truthy entry.check_out then
        let s' := updateById s entry.id u (fun e =>
          { e with check_out := some now,
                   timezone := sqlCoalesce e.timezone tz })
        let ci := entry.check_in.getD ""
        (s', Except.ok { action := "check-out", time := now, entryId := entry.id,
                         checkIn := entry.check_in, checkOut := some now,
                         duration := some (durationHM ci now),
                         lastComment := none, lastCommentDate := none })
      else
        (s, Except.error ApiError.unknownState)

/-- The derived per-(user, date) state of §4.1 of the spec: `OPEN` when the
latest entry has truthy `check_in` and falsy `check_out`, `NONE` otherwise. -/
inductive DayState
  | NONE
  | OPEN
  deriving Repr, DecidableEq

/-- Derive the state for a (user, date) from the latest entry. -/
def stateOf (s : Store) (u : Nat) (d : String) : DayState :=
  match latestEntry s u d with
  | some e => if truthy e.check_in && !truthy e.check_out then DayState.OPEN else DayState.NONE
  | none => DayState.NONE

/-- An entry is open when its `check_in` is truthy and its `check_out` is
falsy. -/
def isOpen (e : Entry) : Bool :=
  truthy e.check_in && !truthy e.check_out

/-- The open entries of a (user, date). -/
def openEntries (s : Store) (u : Nat) (d : String) : List Entry :=
  s.entries.filter (fun e => entryMatches u d e && isOpen e)

/-- How many open entries a (user, date) has. -/
def openCount (s : Store) (u : Nat) (d : String) : Nat :=
  (openEntries s u d).length

/-- One lifecycle operation, carrying the resolved `today`/`now` request
values. -/
inductive Op
  | clockIn (u : Nat) (date time : String) (tz : Option String)
  | clockOut (u : Nat) (date time : String) (tz comment : Option String)
  | toggle (u : Nat) (date time : String) (tz : Option String)

/-- Apply an operation to the store, discarding the response. -/
def Op.apply (s : Store) : Op → Store
  | Op.clockIn u d t tz => (TimeTracker.clockIn s u d t tz).1
  | Op.clockOut u d t tz c => (TimeTracker.clockOut s u d t tz c).1
  | Op.toggle u d t tz => (TimeTracker.toggle s u d t tz).1

/-- The handlers resolve `now` as `time || serverTime` with `serverTime` a
nonempty `HH:MM` string, so the stored time value is never empty. -/
def Op.validTime : Op → Prop
  | Op.clockIn _ _ t _ => t ≠ ""
  | Op.clockOut _ _ t _ _ => t ≠ ""
  | Op.toggle _ _ t _ => t ≠ ""

/-- Execute a sequence of lifecycle operations from the empty store. -/
def runOps (ops : List Op) : Store :=
  ops.foldl Op.apply emptyStore

/-! ### Excel report builder (`lib/excelReport.js`) -/

/-- JavaScript `String(n).padStart(2, '0')`. -/
def padStart2 (s : String) : String :=
  if s.length ≥ 2 then s
  else if s.length = 1 then "0" ++ s
  else "00" ++ s

/-- The summary format `` `${hours}:${mins.toString().padStart(2, '0')}` ``
with `hours = Math.floor(tm / 60)` and `mins = tm % 60` (JavaScript
remainder). -/
def formatTotal (tm : Int) : String :=
  toString (Int.fdiv tm 60) ++ ":" ++ padStart2 (toString (Int.tmod tm 60))

/-- The Gregorian leap-year rule, as implemented by the JavaScript `Date`
calendar that `new Date(year, month, 0).getDate()` consults. -/
def isLeapYear (y : Nat) : Bool :=
  (y % 4 == 0 && y % 100 != 0) || y % 400 == 0

/-- The value of `new Date(year, month, 0).getDate()`: the number of days of month `m`
(1–12) of year `y`. -/
def daysInMonth (y m : Nat) : Nat :=
  if m == 2 then (if isLeapYear y then 29 else 28)
  else if m == 4 || m == 6 || m == 9 || m == 11 then 30
  else 31

/-- The value of `new Date(y, m - 1, d).getDay()`: 0 = Sunday … 6 = Saturday, computed
with Sakamoto's congruence for the Gregorian calendar. -/
def dayOfWeek (y m d : Nat) : Nat :=
  let t := [0, 3, 2, 5, 0, 3, 5, 1, 4, 6, 2, 4]
  let y' := if m < 3 then y - 1 else y
  (y' + y' / 4 - y' / 100 + y' / 400 + t.getD (m - 1) 0 + d) % 7

/-- The template literal producing the padded `YYYY-MM-DD` date string of a day. -/
def dateString (y m d : Nat) : String :=
  toString y ++ "-" ++ padStart2 (toString m) ++ "-" ++ padStart2 (toString d)

/-- The helper `this._getWeekdayName(dayNum)`. -/
def weekdayName (n : Nat) : String :=
  ["Sunday", "Monday", "Tuesday", "Wednesday", "Thursday", "Friday",
   "Saturday"].getD n ""

/-- The lookup `entriesMap.get(date)` where the map was filled by
`entries.forEach(e => entriesMap.set(e.date, e))`: the last entry of the
list with that date wins. -/
def entriesMapGet (entries : List Entry) (d : String) : Option Entry :=
  (entries.filter (fun e => e.date == d)).getLast?

/-- One day row of a month sheet: `[date, weekday, checkIn, checkOut,
total, comment]`. -/
structure Row where
  date : String
  weekday : String
  check_in : String
  check_out : String
  total : String
  comment : String
  deriving Repr, DecidableEq

/-- The minutes a calendar date contributes to `totalMinutesMonth`: the
looked-up entry's `(out - in)` difference when both `check_in` and
`check_out` are truthy, else 0. -/
def dayMinutes (entries : List Entry) (date : String) : Int :=
  match entriesMapGet entries date with
  | some e =>
      if truthy e.check_in && truthy e.check_out then
        totalMinutes (e.check_in.getD "") (e.check_out.getD "")
      else 0
  | none => 0

/-- The row `_createMonthSheet` emits for day `day` of month `(y, m)`:
an existing entry shows its fields (`null` rendered as `''`) and, when both
times are present, the `H:MM` total; a missing entry on a weekend shows the
`---` sentinel in both time columns. -/
def dayRow (y m day : Nat) (entries : List Entry) : Row :=
  let date := dateString y m day
  let dow := dayOfWeek y m day
  let isWeekend := dow == 0 || dow == 6
  match entriesMapGet entries date with
  | some entry =>
      { date := date, weekday := weekdayName dow,
        check_in := entry.check_in.getD "",
        check_out := entry.check_out.getD "",
        total :=
          if truthy entry.check_in && truthy entry.check_out then
            formatTotal (totalMinutes (entry.check_in.getD "") (entry.check_out.getD ""))
          else "",
        comment := entry.comment.getD "" }
  | none =>
      { date := date, weekday := weekdayName dow,
        check_in := if isWeekend then "---" else "",
        check_out := if isWeekend then "---" else "",
        total := "", comment := "" }

/-- The day numbers `1 .. daysInMonth` the sheet loop enumerates. -/
def monthDays (y m : Nat) : List Nat :=
  (List.range (daysInMonth y m)).map (fun d => d + 1)

/-- A month worksheet: its day rows and the `TOTAL` summary value. -/
structure MonthSheet where
  year : Nat
  month : Nat
  rows : List Row
  totalRow : String
  deriving Repr, DecidableEq

/-- The sheet builder `ExcelReport._createMonthSheet`: one row per day 1..daysInMonth and the
month `TOTAL` formatted `H:MM` from the accumulated minutes. -/
def createMonthSheet (y m : Nat) (entries : List Entry) : MonthSheet :=
  let days := monthDays y m
  { year := y, month := m,
    rows := days.map (fun d => dayRow y m d entries),
    totalRow :=
      formatTotal (days.foldl (fun acc d => acc + dayMinutes entries (dateString y m d)) 0) }

/-- The `(year, month)` sequence starting at `(y, m)` of length `k`,
stepping month by month with year rollover — the successive values of
`current` in `_getMonthsInRange`'s while loop. -/
def monthsFrom (y m k : Nat) : List (Nat × Nat) :=
  match k with
  | 0 => []
  | Nat.succ k' =>
      (y, m) :: (if m = 12 then monthsFrom (y + 1) 1 k' else monthsFrom y (m + 1) k')

/-- The month enumeration `ExcelReport._getMonthsInRange` on the parsed range bounds: `current`
starts at the first of the start month and advances while
`current <= end`; since `current` is always a first-of-month midnight and
`end` carries `23:59:59` of the end date, exactly the months with
`sy*12+sm ≤ y*12+m ≤ ey*12+em` are produced. -/
def monthsInRange (sy sm ey em : Nat) : List (Nat × Nat) :=
  monthsFrom sy sm (ey * 12 + em + 1 - (sy * 12 + sm))

/-- Extract `(year, month, day)` from a `YYYY-MM-DD` string, as
`new Date(s + 'T00:00:00')` does for well-formed date strings. -/
def parseDate (s : String) : Nat × Nat × Nat :=
  match splitOnChar '-' s.data with
  | [y, m, d] => ((decimalNat y).getD 0, (decimalNat m).getD 0, (decimalNat d).getD 0)
  | _ => (0, 0, 0)

/-- The range query `SELECT * FROM entries WHERE user_id = ? AND date >= ?
AND date <= ? ORDER BY date ASC` — rows in rowid order within equal dates, which is all
the date-keyed entries map can observe. -/
def queryRange (s : Store) (u : Nat) (startDate endDate : String) : List Entry :=
  s.entries.filter (fun e => e.user_id == u && strLe startDate e.date && strLe e.date endDate)

/-- The report builder `ExcelReport.generateReport`: query the range, then one month sheet per
month of the range. -/
def generateReport (s : Store) (u : Nat) (startDate endDate : String) :
    List MonthSheet :=
  let entries := queryRange s u startDate endDate
  let ps := parseDate startDate
  let pe := parseDate endDate
  (monthsInRange ps.1 ps.2.1 pe.1 pe.2.1).map (fun ym => createMonthSheet ym.1 ym.2 entries)

/-- The month-range entry point `ExcelReport.generateMonthRangeReport`: build the `YYYY-MM-DD` bounds
(first of the start month to last day of the end month) and delegate. -/
def generateMonthRangeReport (s : Store) (u startYear startMonth endYear endMonth : Nat) :
    List MonthSheet :=
  let startDate := dateString startYear startMonth 1
  let endDate := dateString endYear endMonth (daysInMonth endYear endMonth)
  generateReport s u startDate endDate

/-! ### Derived state, invariants and concrete instances -/

/-- Well-shaped table: rows are in strictly increasing rowid order and every
rowid is below the next AUTOINCREMENT value. -/
def WS (s : Store) : Prop :=
  s.entries.Pairwise (fun a b => a.id < b.id) ∧ ∀ e ∈ s.entries, e.id < s.nextId

/-- Every open entry is the latest entry of its (user, date). -/
def OpenIsLatest (s : Store) : Prop :=
  ∀ e ∈ s.entries, isOpen e = true → latestEntry s e.user_id e.date = some e

/-- Every row the lifecycle handlers ever write has a truthy (nonempty)
`check_in` and never an empty-string `check_out`. -/
def TimesOk (s : Store) : Prop :=
  ∀ e ∈ s.entries, truthy e.check_in = true ∧ e.check_out ≠ some ""

/-- The invariant of stores reachable by the lifecycle handlers. -/
def Good (s : Store) : Prop :=
  WS s ∧ OpenIsLatest s ∧ TimesOk s

/-- The SET clause of the clock-out UPDATE. -/
def clockOutSet (t : String) (tz c : Option String) (e : Entry) : Entry :=
  { e with check_out := some t, comment := orNull c,
           timezone := sqlCoalesce e.timezone (orNull tz) }

/-- The check-in branch of the toggle response. -/
def toggleCheckInResp (s : Store) (u : Nat) (d t : String) (tz : Option String) :
    ToggleResp :=
  let lc := lastCommentEntry (insertEntry s u d t (orNull tz)).1 u
  { action := "check-in", time := t, entryId := s.nextId,
    checkIn := none, checkOut := none, duration := none,
    lastComment := lc.bind Entry.comment, lastCommentDate := lc.map Entry.date }

/-- The SET clause of the toggle check-out UPDATE (no comment). -/
def toggleSet (t : String) (tz : Option String) (e : Entry) : Entry :=
  { e with check_out := some t, timezone := sqlCoalesce e.timezone (orNull tz) }

/-- The check-out branch of the toggle response. -/
def toggleCheckOutResp (e : Entry) (t : String) : ToggleResp :=
  { action := "check-out", time := t, entryId := e.id,
    checkIn := e.check_in, checkOut := some t,
    duration := some (durationHM (e.check_in.getD "") t),
    lastComment := none, lastCommentDate := none }

/-- A concrete open entry for instantiating the general theorems. -/
def entryW : Entry :=
  { id := 1, user_id := 1, date := "2026-03-10", check_in := some "09:00",
    check_out := none, comment := none, timezone := none }

/-- A store holding one open entry, used to instantiate the general
theorems at a concrete input. -/
def openStoreW : Store :=
  { entries := [entryW], nextId := 2 }

/-- The duration formula as the claim words it, with `floor` division and
the mathematical (nonnegative-remainder) `mod`: `h = ⌊diff / 60⌋` and
`m = diff mod 60`. -/
def specDuration (checkIn checkOut : String) : String :=
  let tm := totalMinutes checkIn checkOut
  toString (Int.fdiv tm 60) ++ "h " ++ toString (Int.emod tm 60) ++ "m"

/-- A store whose open entry starts at 10:00, so a 09:30 check-out crosses
into negative minutes. -/
def openStore1000 : Store :=
  { entries := [{ id := 1, user_id := 1, date := "2026-03-10", check_in := some "10:00",
                  check_out := none, comment := none, timezone := none }], nextId := 2 }

/-- The entry `x` sorts no later than `y` under `ORDER BY date DESC, id DESC`. -/
def LexLE (x y : Entry) : Prop :=
  strLt y.date x.date = false ∧ (x.date = y.date → x.id ≤ y.id)

/-- The response field described by the claim: the most recent nonempty
comment of the user over all of their entries, ordered by date then id,
latest first. -/
def IsMostRecentComment (s : Store) (u : Nat) : Option String → Prop
  | none => ∀ e ∈ s.entries, hasComment u e = false
  | some cm => ∃ e, e ∈ s.entries ∧ hasComment u e = true ∧ e.comment = some cm ∧
      ∀ e' ∈ s.entries, hasComment u e' = true → LexLE e' e

/-- A store with one fully closed, commented entry. -/
def closedStoreW : Store :=
  { entries := [{ id := 1, user_id := 1, date := "2026-03-09", check_in := some "09:00",
                  check_out := some "17:00", comment := some "standup",
                  timezone := none }],
    nextId := 2 }

/-- What one entry contributes to the claimed month total: its minute
difference when both times are set, zero otherwise. -/
def entryMinutes (e : Entry) : Int :=
  if e.check_in.isSome && e.check_out.isSome then
    totalMinutes (e.check_in.getD "") (e.check_out.getD "")
  else 0

/-- The month total as the claim words it: the sum over the month's entries
(those with both `check_in` and `check_out` set) of the per-day minute
difference, rendered by the `H:MM` formatter. -/
def specMonthTotal (entries : List Entry) : String :=
  formatTotal (entries.map entryMinutes).sum

/-- Two fully closed shifts on the same day: one hour each. -/
def multiShiftEntries : List Entry :=
  [{ id := 1, user_id := 1, date := "2026-03-10", check_in := some "09:00",
     check_out := some "10:00", comment := none, timezone := none },
   { id := 2, user_id := 1, date := "2026-03-10", check_in := some "11:00",
     check_out := some "12:00", comment := none, timezone := none }]

/-! ### Basic lemmas about the string order and truthiness -/

theorem charsLt_antisymm : ∀ {a b : List Char},
    charsLt a b = false → charsLt b a = false → a = b := by
  intro a
  induction a with
  | nil =>
      intro b h1 _
      cases b with
      | nil => rfl
      | cons x xs => simp [charsLt] at h1
  | cons x xs ih =>
      intro b h1 h2
      cases b with
      | nil => simp [charsLt] at h2
      | cons y ys =>
          simp only [charsLt] at h1 h2
          rcases Nat.lt_trichotomy x.toNat y.toNat with hlt | heq | hgt
          · rw [if_pos hlt] at h1; cases h1
          · have hx : x = y := Char.ext (UInt32.ext heq)
            subst hx
            rw [if_neg (lt_irrefl _), if_neg (lt_irrefl _)] at h1 h2
            rw [ih h1 h2]
          · rw [if_pos hgt] at h2; cases h2

theorem charsLt_trans : ∀ {a b c : List Char},
    charsLt a b = true → charsLt b c = true → charsLt a c = true := by
  intro a
  induction a with
  | nil =>
      intro b c _ h2
      cases b with
      | nil => exact h2
      | cons y ys =>
          cases c with
          | nil => simp [charsLt] at h2
          | cons z zs => simp [charsLt]
  | cons x xs ih =>
      intro b c h1 h2
      cases b with
      | nil => simp [charsLt] at h1
      | cons y ys =>
          cases c with
          | nil => simp [charsLt] at h2
          | cons z zs =>
              simp only [charsLt] at h1 h2 ⊢
              rcases Nat.lt_trichotomy x.toNat y.toNat with hxy | hxy | hxy
              · rcases Nat.lt_trichotomy y.toNat z.toNat with hyz | hyz | hyz
                · rw [if_pos (lt_trans hxy hyz)]
                · rw [if_pos (hyz ▸ hxy)]
                · rw [if_pos hyz, if_neg (asymm hyz)] at h2; cases h2
              · rcases Nat.lt_trichotomy y.toNat z.toNat with hyz | hyz | hyz
                · rw [if_pos (hxy ▸ hyz)]
                · rw [if_neg (hxy.trans hyz ▸ lt_irrefl _), if_neg (hxy.trans hyz ▸ lt_irrefl _)]
                  rw [if_neg (hxy ▸ lt_irrefl _), if_neg (hxy ▸ lt_irrefl _)] at h1
                  rw [if_neg (hyz ▸ lt_irrefl _), if_neg (hyz ▸ lt_irrefl _)] at h2
                  exact ih h1 h2
                · rw [if_pos hyz, if_neg (asymm hyz)] at h2; cases h2
              · rw [if_pos hxy, if_neg (asymm hxy)] at h1; cases h1

theorem strLt_antisymm {a b : String} (h1 : strLt a b = false)
    (h2 : strLt b a = false) : a = b := by
  cases a; cases b
  simp only [strLt] at h1 h2
  exact congrArg String.mk (charsLt_antisymm h1 h2)

theorem strLt_trans {a b c : String} (h1 : strLt a b = true)
    (h2 : strLt b c = true) : strLt a c = true :=
  charsLt_trans h1 h2

theorem truthy_some_iff {s : String} : truthy (some s) = true ↔ s ≠ "" := by
  simp [truthy]

theorem orNull_eq_self {x : Option String} (h : x ≠ some "") : orNull x = x := by
  cases x with
  | none => rfl
  | some s =>
      have : ¬(s == "") = true := by
        intro hb
        exact h (congrArg some (by simpa using hb))
      simp [orNull, this]

/-! ### Lemmas about `latestEntry`, insertion and update -/

theorem entryMatches_iff {u : Nat} {d : String} {e : Entry} :
    entryMatches u d e = true ↔ e.user_id = u ∧ e.date = d := by
  simp [entryMatches]

theorem latestEntry_mem {s : Store} {u : Nat} {d : String} {e : Entry}
    (h : latestEntry s u d = some e) :
    e ∈ s.entries ∧ e.user_id = u ∧ e.date = d := by
  have hm : e ∈ s.entries.filter (entryMatches u d) := List.mem_of_mem_getLast? h
  rcases List.mem_filter.mp hm with ⟨hmem, hmatch⟩
  exact ⟨hmem, (entryMatches_iff.mp hmatch).1, (entryMatches_iff.mp hmatch).2⟩

theorem latestEntry_insert (s : Store) (u : Nat) (d t : String) (tz : Option String)
    (u' : Nat) (d' : String) :
    latestEntry (insertEntry s u d t tz).1 u' d' =
      if u = u' ∧ d = d' then some (newEntry s u d t tz)
      else latestEntry s u' d' := by
  unfold latestEntry insertEntry
  rw [List.filter_append]
  by_cases h : u = u' ∧ d = d'
  · rw [if_pos h]
    have hm : entryMatches u' d' (newEntry s u d t tz) = true := by
      simp [entryMatches, newEntry, h.1, h.2]
    simp [hm, List.getLast?_concat]
  · rw [if_neg h]
    have hm : entryMatches u' d' (newEntry s u d t tz) = false := by
      rw [← Bool.not_eq_true]
      intro hc
      rw [entryMatches_iff] at hc
      simp only [newEntry] at hc
      exact h ⟨hc.1, hc.2⟩
    simp [hm]

theorem applyUpd_matches {i u : Nat} {f : Entry → Entry}
    (hf : ∀ x, (f x).user_id = x.user_id ∧ (f x).date = x.date)
    (u' : Nat) (d' : String) (e : Entry) :
    entryMatches u' d' (applyUpd i u f e) = entryMatches u' d' e := by
  unfold applyUpd
  split
  · simp [entryMatches, (hf e).1, (hf e).2]
  · rfl

theorem latestEntry_updateById {i u : Nat} {f : Entry → Entry}
    (hf : ∀ x, (f x).user_id = x.user_id ∧ (f x).date = x.date)
    (s : Store) (u' : Nat) (d' : String) :
    latestEntry (updateById s i u f) u' d' =
      (latestEntry s u' d').map (applyUpd i u f) := by
  unfold latestEntry updateById
  have hc : ∀ l : List Entry,
      (l.map (applyUpd i u f)).filter (entryMatches u' d') =
        (l.filter (entryMatches u' d')).map (applyUpd i u f) := by
    intro l
    induction l with
    | nil => rfl
    | cons a l ih =>
        simp only [List.map_cons, List.filter_cons, applyUpd_matches hf]
        split
        · simp only [List.map_cons, ih]
        · exact ih
  rw [hc, List.getLast?_map]

/-! ### The store invariant maintained by the lifecycle handlers -/

theorem good_empty : Good emptyStore := by
  refine ⟨⟨List.Pairwise.nil, ?_⟩, ?_, ?_⟩ <;> intro e he <;> cases he

theorem eq_of_id_eq {l : List Entry} (hl : l.Pairwise (fun a b => a.id < b.id))
    {a b : Entry} (ha : a ∈ l) (hb : b ∈ l) (h : a.id = b.id) : a = b := by
  induction l with
  | nil => cases ha
  | cons x xs ih =>
      rcases List.pairwise_cons.mp hl with ⟨hx, hxs⟩
      cases ha with
      | head =>
          cases hb with
          | head => rfl
          | tail _ hb' => exact absurd (h ▸ hx b hb') (lt_irrefl _)
      | tail _ ha' =>
          cases hb with
          | head => exact absurd (h ▸ hx a ha') (lt_irrefl _)
          | tail _ hb' => exact ih hxs ha' hb'

theorem good_insert {s : Store} (hg : Good s) {u : Nat} {d t : String}
    {tz : Option String}
    (hguard : ∀ e, latestEntry s u d = some e → isOpen e = false)
    (ht : t ≠ "") : Good (insertEntry s u d t tz).1 := by
  rcases hg with ⟨⟨hpw, hbound⟩, hoil, htok⟩
  have hE : (insertEntry s u d t tz).1.entries = s.entries ++ [newEntry s u d t tz] := rfl
  have hN : (insertEntry s u d t tz).1.nextId = s.nextId + 1 := rfl
  refine ⟨⟨?_, ?_⟩, ?_, ?_⟩
  · rw [hE, List.pairwise_append]
    refine ⟨hpw, List.pairwise_singleton _ _, ?_⟩
    intro a ha b hb
    have hb' : b = newEntry s u d t tz := by simpa using hb
    subst hb'
    exact hbound a ha
  · intro e he
    rw [hE] at he
    rw [hN]
    rcases List.mem_append.mp he with h | h
    · exact Nat.lt_trans (hbound e h) (Nat.lt_succ_self _)
    · have h' : e = newEntry s u d t tz := by simpa using h
      subst h'
      exact Nat.lt_succ_self _
  · intro e he hopen
    rw [hE] at he
    rcases List.mem_append.mp he with h | h
    · have hlat := hoil e h hopen
      have hne : ¬(u = e.user_id ∧ d = e.date) := by
        rintro ⟨h1, h2⟩
        rw [h1, h2] at hguard
        have := hguard e hlat
        rw [this] at hopen
        cases hopen
      rw [latestEntry_insert, if_neg hne]
      exact hlat
    · have h' : e = newEntry s u d t tz := by simpa using h
      subst h'
      have : (newEntry s u d t tz).user_id = u ∧ (newEntry s u d t tz).date = d := ⟨rfl, rfl⟩
      rw [this.1, this.2, latestEntry_insert, if_pos ⟨rfl, rfl⟩]
  · intro e he
    rw [hE] at he
    rcases List.mem_append.mp he with h | h
    · exact htok e h
    · have h' : e = newEntry s u d t tz := by simpa using h
      subst h'
      refine ⟨truthy_some_iff.mpr ht, ?_⟩
      intro hc
      cases hc

theorem good_update {s : Store} (hg : Good s) {u : Nat} {d : String} {e : Entry}
    {f : Entry → Entry}
    (he : latestEntry s u d = some e)
    (hf : ∀ x, (f x).user_id = x.user_id ∧ (f x).date = x.date ∧ (f x).id = x.id ∧
      (f x).check_in = x.check_in)
    (hfe : (f e).check_out ≠ some "") :
    Good (updateById s e.id u f) := by
  rcases hg with ⟨⟨hpw, hbound⟩, hoil, htok⟩
  rcases latestEntry_mem he with ⟨hem, heu, hed⟩
  have hf2 : ∀ x, (f x).user_id = x.user_id ∧ (f x).date = x.date :=
    fun x => ⟨(hf x).1, (hf x).2.1⟩
  have happ_id : ∀ x, (applyUpd e.id u f x).id = x.id := by
    intro x
    unfold applyUpd
    split
    · exact (hf x).2.2.1
    · rfl
  have happ_other : ∀ x ∈ s.entries, x ≠ e → applyUpd e.id u f x = x := by
    intro x hx hne
    unfold applyUpd
    split
    · rename_i hcond
      simp only [Bool.and_eq_true, beq_iff_eq] at hcond
      exact absurd (eq_of_id_eq hpw hx hem hcond.1) hne
    · rfl
  have happ_e : applyUpd e.id u f e = f e := by
    unfold applyUpd
    rw [if_pos]
    rw [Bool.and_eq_true]
    exact ⟨Nat.beq_eq_true_eq _ _ ▸ rfl, by rw [heu]; exact Nat.beq_eq_true_eq _ _ ▸ rfl⟩
  refine ⟨⟨?_, ?_⟩, ?_, ?_⟩
  · unfold updateById
    have : s.entries.map (applyUpd e.id u f) = s.entries.map (applyUpd e.id u f) := rfl
    refine (List.pairwise_map.mpr ?_)
    refine hpw.imp_of_mem ?_
    intro a b ha hb hab
    rw [happ_id a, happ_id b]
    exact hab
  · intro x hxm
    rcases List.mem_map.mp hxm with ⟨y, hy, rfl⟩
    rw [happ_id y]
    exact hbound y hy
  · intro x hxm hopen
    rcases List.mem_map.mp hxm with ⟨y, hy, rfl⟩
    by_cases hye : y = e
    · subst hye
      rw [happ_e] at hopen ⊢
      rw [(hf y).1, (hf y).2.1, heu, hed]
      rw [latestEntry_updateById hf2, he]
      simp only [Option.map_some']
      rw [happ_e]
    · rw [happ_other y hy hye] at hopen ⊢
      have hlat := hoil y hy hopen
      have hkey : ¬(y.user_id = u ∧ y.date = d) := by
        rintro ⟨h1, h2⟩
        rw [h1, h2, he] at hlat
        exact hye (Option.some_inj.mp hlat.symm)
      rw [latestEntry_updateById hf2, hlat]
      simp only [Option.map_some']
      rw [happ_other y hy hye]
  · intro x hxm
    rcases List.mem_map.mp hxm with ⟨y, hy, rfl⟩
    by_cases hye : y = e
    · subst hye
      rw [happ_e]
      exact ⟨(hf y).2.2.2 ▸ (htok y hy).1, hfe⟩
    · rw [happ_other y hy hye]
      exact htok y hy

/-! ### Equation lemmas for the three handlers -/

theorem clockIn_none {s : Store} {u : Nat} {d t : String} {tz : Option String}
    (h : latestEntry s u d = none) :
    clockIn s u d t tz =
      ((insertEntry s u d t (orNull tz)).1, Except.ok { id := s.nextId, time := t }) := by
  unfold clockIn
  rw [h]
  rfl

theorem clockIn_open {s : Store} {u : Nat} {d t : String} {tz : Option String} {e : Entry}
    (h : latestEntry s u d = some e) (ho : isOpen e = true) :
    clockIn s u d t tz = (s, Except.error ApiError.alreadyClockedIn) := by
  have hraw : (truthy e.check_in && !truthy e.check_out) = true := ho
  unfold clockIn
  rw [h]
  simp only [hraw, if_true]

theorem clockIn_notOpen {s : Store} {u : Nat} {d t : String} {tz : Option String} {e : Entry}
    (h : latestEntry s u d = some e) (ho : isOpen e = false) :
    clockIn s u d t tz =
      ((insertEntry s u d t (orNull tz)).1, Except.ok { id := s.nextId, time := t }) := by
  have hraw : (truthy e.check_in && !truthy e.check_out) = false := ho
  unfold clockIn
  rw [h]
  simp only [hraw, Bool.false_eq_true, if_false]
  rfl

theorem clockOut_none {s : Store} {u : Nat} {d t : String} {tz c : Option String}
    (h : latestEntry s u d = none) :
    clockOut s u d t tz c = (s, Except.error ApiError.notClockedIn) := by
  unfold clockOut
  rw [h]

theorem clockOut_noCheckIn {s : Store} {u : Nat} {d t : String} {tz c : Option String}
    {e : Entry} (h : latestEntry s u d = some e) (hci : truthy e.check_in = false) :
    clockOut s u d t tz c = (s, Except.error ApiError.notClockedIn) := by
  unfold clockOut
  rw [h]
  simp [hci]

theorem clockOut_alreadyOut {s : Store} {u : Nat} {d t : String} {tz c : Option String}
    {e : Entry} (h : latestEntry s u d = some e) (hci : truthy e.check_in = true)
    (hco : truthy e.check_out = true) :
    clockOut s u d t tz c = (s, Except.error ApiError.alreadyClockedOut) := by
  unfold clockOut
  rw [h]
  simp [hci, hco]

theorem clockOut_success {s : Store} {u : Nat} {d t : String} {tz c : Option String}
    {e : Entry} (h : latestEntry s u d = some e) (hci : truthy e.check_in = true)
    (hco : truthy e.check_out = false) :
    clockOut s u d t tz c =
      (updateById s e.id u (clockOutSet t tz c), Except.ok { time := t }) := by
  unfold clockOut
  rw [h]
  simp only [hci, hco, Bool.not_true, Bool.false_eq_true, if_false, if_true]
  rfl

theorem toggle_none {s : Store} {u : Nat} {d t : String} {tz : Option String}
    (h : latestEntry s u d = none) :
    toggle s u d t tz =
      ((insertEntry s u d t (orNull tz)).1, Except.ok (toggleCheckInResp s u d t tz)) := by
  unfold toggle
  rw [h]
  rfl

theorem toggle_closed {s : Store} {u : Nat} {d t : String} {tz : Option String}
    {e : Entry} (h : latestEntry s u d = some e) (hco : truthy e.check_out = true) :
    toggle s u d t tz =
      ((insertEntry s u d t (orNull tz)).1, Except.ok (toggleCheckInResp s u d t tz)) := by
  unfold toggle
  rw [h]
  simp only [hco, if_true]
  rfl

theorem toggle_open {s : Store} {u : Nat} {d t : String} {tz : Option String}
    {e : Entry} (h : latestEntry s u d = some e) (hco : truthy e.check_out = false)
    (hci : truthy e.check_in = true) :
    toggle s u d t tz =
      (updateById s e.id u (toggleSet t tz), Except.ok (toggleCheckOutResp e t)) := by
  unfold toggle
  rw [h]
  simp only [hco, hci, Bool.not_false, Bool.and_true, Bool.false_eq_true, if_false, if_true]
  rfl

theorem toggle_unknown {s : Store} {u : Nat} {d t : String} {tz : Option String}
    {e : Entry} (h : latestEntry s u d = some e) (hco : truthy e.check_out = false)
    (hci : truthy e.check_in = false) :
    toggle s u d t tz = (s, Except.error ApiError.unknownState) := by
  unfold toggle
  rw [h]
  simp only [hco, hci, Bool.not_false, Bool.false_and, Bool.false_eq_true, if_false]

/-! ### Preservation of the invariant by every operation -/

theorem good_clockIn {s : Store} (hg : Good s) {u : Nat} {d t : String}
    {tz : Option String} (ht : t ≠ "") : Good (clockIn s u d t tz).1 := by
  cases hle : latestEntry s u d with
  | none =>
      rw [clockIn_none hle]
      refine good_insert hg ?_ ht
      intro e' h'
      rw [hle] at h'
      cases h'
  | some e =>
      cases ho : isOpen e with
      | true =>
          rw [clockIn_open hle ho]
          exact hg
      | false =>
          rw [clockIn_notOpen hle ho]
          refine good_insert hg ?_ ht
          intro e' h'
          rw [hle] at h'
          rw [← Option.some_inj.mp h']
          exact ho

theorem good_clockOut {s : Store} (hg : Good s) {u : Nat} {d t : String}
    {tz c : Option String} (ht : t ≠ "") : Good (clockOut s u d t tz c).1 := by
  cases hle : latestEntry s u d with
  | none =>
      rw [clockOut_none hle]
      exact hg
  | some e =>
      cases hci : truthy e.check_in with
      | false =>
          rw [clockOut_noCheckIn hle hci]
          exact hg
      | true =>
          cases hco : truthy e.check_out with
          | true =>
              rw [clockOut_alreadyOut hle hci hco]
              exact hg
          | false =>
              rw [clockOut_success hle hci hco]
              refine good_update hg hle ?_ ?_
              · intro x
                exact ⟨rfl, rfl, rfl, rfl⟩
              · intro hcontra
                exact ht (Option.some_inj.mp hcontra)

theorem good_toggle {s : Store} (hg : Good s) {u : Nat} {d t : String}
    {tz : Option String} (ht : t ≠ "") : Good (toggle s u d t tz).1 := by
  cases hle : latestEntry s u d with
  | none =>
      rw [toggle_none hle]
      refine good_insert hg ?_ ht
      intro e' h'
      rw [hle] at h'
      cases h'
  | some e =>
      cases hco : truthy e.check_out with
      | true =>
          rw [toggle_closed hle hco]
          refine good_insert hg ?_ ht
          intro e' h'
          rw [hle] at h'
          rw [← Option.some_inj.mp h']
          unfold isOpen
          rw [hco]
          simp
      | false =>
          cases hci : truthy e.check_in with
          | true =>
              rw [toggle_open hle hco hci]
              refine good_update hg hle ?_ ?_
              · intro x
                exact ⟨rfl, rfl, rfl, rfl⟩
              · intro hcontra
                exact ht (Option.some_inj.mp hcontra)
          | false =>
              rw [toggle_unknown hle hco hci]
              exact hg

theorem good_apply {s : Store} (hg : Good s) {op : Op} (hv : op.validTime) :
    Good (op.apply s) := by
  cases op with
  | clockIn u d t tz => exact good_clockIn hg hv
  | clockOut u d t tz c => exact good_clockOut hg hv
  | toggle u d t tz => exact good_toggle hg hv

theorem good_foldl {ops : List Op} :
    ∀ {s : Store}, Good s → (∀ op ∈ ops, op.validTime) →
      Good (ops.foldl Op.apply s) := by
  induction ops with
  | nil => intro s hg _; exact hg
  | cons op ops ih =>
      intro s hg hv
      exact ih (good_apply hg (hv op (List.mem_cons_self _ _)))
        fun o ho => hv o (List.mem_cons_of_mem _ ho)

theorem good_runOps {ops : List Op} (hv : ∀ op ∈ ops, op.validTime) :
    Good (runOps ops) :=
  good_foldl good_empty hv

/-! ### At most one open entry per (user, date) -/

theorem length_le_one_of_forall_eq {l : List Entry} (hn : l.Nodup) (a : Entry)
    (h : ∀ x ∈ l, x = a) : l.length ≤ 1 := by
  cases l with
  | nil => exact Nat.zero_le 1
  | cons x xs =>
      cases xs with
      | nil => exact le_refl 1
      | cons y ys =>
          have hx : x = a := h x (List.mem_cons_self _ _)
          have hy : y = a := h y (List.mem_cons_of_mem _ (List.mem_cons_self _ _))
          rcases List.nodup_cons.mp hn with ⟨hxm, _⟩
          exact absurd (hx.trans hy.symm ▸ List.mem_cons_self x ys) hxm

theorem openCount_le_one {s : Store} (hg : Good s) (u : Nat) (d : String) :
    openCount s u d ≤ 1 := by
  rcases hg with ⟨⟨hpw, _⟩, hoil, _⟩
  have hall : ∀ x ∈ openEntries s u d, latestEntry s u d = some x := by
    intro x hx
    rcases List.mem_filter.mp hx with ⟨hmem, hq⟩
    rcases Bool.and_eq_true _ _ |>.mp hq with ⟨hmatch, hopen⟩
    rcases entryMatches_iff.mp hmatch with ⟨hu, hd⟩
    have := hoil x hmem hopen
    rw [hu, hd] at this
    exact this
  have hnd : (openEntries s u d).Nodup := by
    have hsub : (openEntries s u d).Sublist s.entries := List.filter_sublist _
    have hpw' := hpw.sublist hsub
    exact hpw'.imp fun hab => by
      intro heq
      rw [heq] at hab
      exact absurd hab (lt_irrefl _)
  unfold openCount
  cases hoe : openEntries s u d with
  | nil => exact Nat.zero_le 1
  | cons x xs =>
      refine length_le_one_of_forall_eq (hoe ▸ hnd) x ?_
      intro y hy
      have h1 := hall x (hoe ▸ List.mem_cons_self x xs)
      have h2 := hall y (hoe ▸ hy)
      rw [h1] at h2
      exact (Option.some_inj.mp h2).symm

/-! ### Helpers relating truthiness to presence -/

theorem isSome_of_truthy {o : Option String} (h : truthy o = true) : o.isSome = true := by
  cases o with
  | none => cases h
  | some s => rfl

theorem eq_none_of_not_truthy {o : Option String} (h1 : truthy o = false)
    (h2 : o ≠ some "") : o = none := by
  cases o with
  | none => rfl
  | some s =>
      exfalso
      have hs : (s == "") = true := by
        have := congrArg Bool.not h1
        simpa [truthy] using this
      exact h2 (by rw [beq_iff_eq.mp hs])

theorem truthy_of_isSome {o : Option String} (h1 : o.isSome = true)
    (h2 : o ≠ some "") : truthy o = true := by
  cases o with
  | none => cases h1
  | some s =>
      apply truthy_some_iff.mpr
      intro hs
      exact h2 (by rw [hs])

/-! ### The derived day state -/

theorem stateOf_none {s : Store} {u : Nat} {d : String}
    (h : latestEntry s u d = none) : stateOf s u d = DayState.NONE := by
  unfold stateOf
  rw [h]

theorem stateOf_some_open {s : Store} {u : Nat} {d : String} {e : Entry}
    (h : latestEntry s u d = some e) (ho : isOpen e = true) :
    stateOf s u d = DayState.OPEN := by
  have hraw : (truthy e.check_in && !truthy e.check_out) = true := ho
  unfold stateOf
  rw [h]
  simp only [hraw, if_true]

theorem stateOf_some_closed {s : Store} {u : Nat} {d : String} {e : Entry}
    (h : latestEntry s u d = some e) (ho : isOpen e = false) :
    stateOf s u d = DayState.NONE := by
  have hraw : (truthy e.check_in && !truthy e.check_out) = false := ho
  unfold stateOf
  rw [h]
  simp only [hraw, Bool.false_eq_true, if_false]

theorem stateOf_open_elim {s : Store} {u : Nat} {d : String}
    (h : stateOf s u d = DayState.OPEN) :
    ∃ e, latestEntry s u d = some e ∧ truthy e.check_in = true ∧
      truthy e.check_out = false := by
  cases hle : latestEntry s u d with
  | none =>
      rw [stateOf_none hle] at h
      cases h
  | some e =>
      cases ho : isOpen e with
      | false =>
          rw [stateOf_some_closed hle ho] at h
          cases h
      | true =>
          rcases Bool.and_eq_true _ _ |>.mp ho with ⟨hci, hco⟩
          exact ⟨e, rfl, hci, by simpa using hco⟩

theorem stateOf_none_cases {s : Store} (hg : Good s) {u : Nat} {d : String}
    (h : stateOf s u d = DayState.NONE) :
    latestEntry s u d = none ∨
      ∃ e, latestEntry s u d = some e ∧ truthy e.check_out = true := by
  cases hle : latestEntry s u d with
  | none => exact Or.inl rfl
  | some e =>
      right
      refine ⟨e, rfl, ?_⟩
      have hci : truthy e.check_in = true := (hg.2.2 e (latestEntry_mem hle).1).1
      cases hco : truthy e.check_out with
      | true => rfl
      | false =>
          exfalso
          have ho : isOpen e = true := by
            unfold isOpen
            rw [hci, hco]
            rfl
          rw [stateOf_some_open hle ho] at h
          cases h

/-- The state of the (user, date) just clocked in is OPEN. -/
theorem stateOf_after_insert {s : Store} {u : Nat} {d t : String} {tz : Option String}
    (ht : t ≠ "") : stateOf (insertEntry s u d t tz).1 u d = DayState.OPEN := by
  apply stateOf_some_open (e := newEntry s u d t tz)
  · rw [latestEntry_insert, if_pos ⟨rfl, rfl⟩]
  · unfold isOpen newEntry
    simp [truthy, ht]

/-! ### C2: the clock-in contract -/

/-- C2: `clock-in` fails with `ALREADY_CLOCKED_IN` exactly when the latest
entry for the (user, date) exists with `check_in` set and `check_out`
unset; otherwise it inserts a fresh entry carrying `check_in = time`,
`check_out = NULL` and the supplied timezone, leaving the date in the
`OPEN` state. -/
theorem C2_clockIn_contract {s : Store} (hg : Good s) (u : Nat) (d t : String)
    (tz : Option String) (ht : t ≠ "") (htz : tz ≠ some "") :
    ((clockIn s u d t tz).2 = Except.error ApiError.alreadyClockedIn ↔
      ∃ e, latestEntry s u d = some e ∧ e.check_in.isSome = true ∧ e.check_out = none) ∧
    ((¬ ∃ e, latestEntry s u d = some e ∧ e.check_in.isSome = true ∧ e.check_out = none) →
      (clockIn s u d t tz).2 = Except.ok { id := s.nextId, time := t } ∧
      (clockIn s u d t tz).1.entries = s.entries ++
        [{ id := s.nextId, user_id := u, date := d, check_in := some t,
           check_out := none, comment := none, timezone := tz }] ∧
      stateOf (clockIn s u d t tz).1 u d = DayState.OPEN) := by
  have hnew : newEntry s u d t (orNull tz) =
      { id := s.nextId, user_id := u, date := d, check_in := some t,
        check_out := none, comment := none, timezone := tz } := by
    unfold newEntry
    rw [orNull_eq_self htz]
  cases hle : latestEntry s u d with
  | none =>
      rw [clockIn_none hle]
      constructor
      · constructor
        · intro hc
          cases hc
        · rintro ⟨e, he, -, -⟩
          cases he
      · intro
        refine ⟨rfl, ?_, stateOf_after_insert ht⟩
        show s.entries ++ [newEntry s u d t (orNull tz)] = _
        rw [hnew]
  | some e =>
      have hmem := (latestEntry_mem hle).1
      have hci : truthy e.check_in = true := (hg.2.2 e hmem).1
      have hcoW : e.check_out ≠ some "" := (hg.2.2 e hmem).2
      cases hco : truthy e.check_out with
      | false =>
          have ho : isOpen e = true := by
            unfold isOpen
            rw [hci, hco]
            rfl
          rw [clockIn_open hle ho]
          constructor
          · constructor
            · intro
              exact ⟨e, rfl, isSome_of_truthy hci, eq_none_of_not_truthy hco hcoW⟩
            · intro
              rfl
          · intro hn
            exact absurd ⟨e, rfl, isSome_of_truthy hci, eq_none_of_not_truthy hco hcoW⟩ hn
      | true =>
          have ho : isOpen e = false := by
            unfold isOpen
            rw [hci, hco]
            rfl
          rw [clockIn_notOpen hle ho]
          constructor
          · constructor
            · intro hc
              cases hc
            · rintro ⟨e', he', -, hco'⟩
              rw [← Option.some_inj.mp he'] at hco'
              rw [hco'] at hco
              simp [truthy] at hco
          · intro
            refine ⟨rfl, ?_, stateOf_after_insert ht⟩
            show s.entries ++ [newEntry s u d t (orNull tz)] = _
            rw [hnew]

theorem good_openStoreW : Good openStoreW := by
  unfold Good WS OpenIsLatest TimesOk
  refine ⟨⟨?_, ?_⟩, ?_, ?_⟩ <;> decide

/-- Witness for C2: a concrete clock-in against the empty store. -/
theorem C2_clockIn_contract_witness :
    ((clockIn emptyStore 1 "2026-03-10" "09:00" (some "Europe/Vienna")).2 =
        Except.error ApiError.alreadyClockedIn ↔
      ∃ e, latestEntry emptyStore 1 "2026-03-10" = some e ∧ e.check_in.isSome = true ∧
        e.check_out = none) ∧
    ((¬ ∃ e, latestEntry emptyStore 1 "2026-03-10" = some e ∧ e.check_in.isSome = true ∧
        e.check_out = none) →
      (clockIn emptyStore 1 "2026-03-10" "09:00" (some "Europe/Vienna")).2 =
        Except.ok { id := emptyStore.nextId, time := "09:00" } ∧
      (clockIn emptyStore 1 "2026-03-10" "09:00" (some "Europe/Vienna")).1.entries =
        emptyStore.entries ++
        [{ id := emptyStore.nextId, user_id := 1, date := "2026-03-10",
           check_in := some "09:00", check_out := none, comment := none,
           timezone := some "Europe/Vienna" }] ∧
      stateOf (clockIn emptyStore 1 "2026-03-10" "09:00" (some "Europe/Vienna")).1
        1 "2026-03-10" = DayState.OPEN) :=
  C2_clockIn_contract good_empty 1 "2026-03-10" "09:00" (some "Europe/Vienna")
    (by decide) (by decide)

/-! ### C3: the clock-out contract -/

/-- C3: `clock-out` fails with `NOT_CLOCKED_IN` when the user has no entry
with `check_in` for that date, fails with `ALREADY_CLOCKED_OUT` when the
latest entry is already closed — leaving the store untouched in both cases
— and on success writes `check_out = time` and the comment onto the latest
entry. -/
theorem C3_clockOut_contract {s : Store} (hg : Good s) (u : Nat) (d t : String)
    (tz c : Option String) (hc : c ≠ some "") :
    ((¬ ∃ e, e ∈ s.entries ∧ entryMatches u d e = true ∧ e.check_in.isSome = true) →
      (clockOut s u d t tz c).2 = Except.error ApiError.notClockedIn ∧
      (clockOut s u d t tz c).1 = s) ∧
    (∀ e, latestEntry s u d = some e → e.check_out.isSome = true →
      (clockOut s u d t tz c).2 = Except.error ApiError.alreadyClockedOut ∧
      (clockOut s u d t tz c).1 = s) ∧
    (∀ e, latestEntry s u d = some e → e.check_out = none →
      (clockOut s u d t tz c).2 = Except.ok { time := t } ∧
      latestEntry (clockOut s u d t tz c).1 u d =
        some { e with check_out := some t, comment := c,
                      timezone := sqlCoalesce e.timezone (orNull tz) }) := by
  refine ⟨?_, ?_, ?_⟩
  · intro hn
    cases hle : latestEntry s u d with
    | none => rw [clockOut_none hle]; exact ⟨rfl, rfl⟩
    | some e =>
        rcases latestEntry_mem hle with ⟨hmem, heu, hed⟩
        have hci : truthy e.check_in = true := (hg.2.2 e hmem).1
        exact absurd ⟨e, hmem, entryMatches_iff.mpr ⟨heu, hed⟩, isSome_of_truthy hci⟩ hn
  · intro e hle hcoS
    rcases latestEntry_mem hle with ⟨hmem, -, -⟩
    have hci : truthy e.check_in = true := (hg.2.2 e hmem).1
    have hco : truthy e.check_out = true :=
      truthy_of_isSome hcoS (hg.2.2 e hmem).2
    rw [clockOut_alreadyOut hle hci hco]
    exact ⟨rfl, rfl⟩
  · intro e hle hcoN
    rcases latestEntry_mem hle with ⟨hmem, heu, -⟩
    have hci : truthy e.check_in = true := (hg.2.2 e hmem).1
    have hco : truthy e.check_out = false := by rw [hcoN]; rfl
    rw [clockOut_success hle hci hco]
    refine ⟨rfl, ?_⟩
    have hf2 : ∀ x, (clockOutSet t tz c x).user_id = x.user_id ∧
        (clockOutSet t tz c x).date = x.date := fun x => ⟨rfl, rfl⟩
    rw [show (updateById s e.id u (clockOutSet t tz c), Except.ok (ClockOutResp.mk t)).1 =
          updateById s e.id u (clockOutSet t tz c) from rfl]
    rw [latestEntry_updateById hf2, hle]
    simp only [Option.map_some']
    have happ : applyUpd e.id u (clockOutSet t tz c) e = clockOutSet t tz c e := by
      unfold applyUpd
      rw [if_pos]
      rw [Bool.and_eq_true]
      exact ⟨by simp, by simp [heu]⟩
    rw [happ]
    unfold clockOutSet
    rw [orNull_eq_self hc]

/-- Witness for C3: a concrete clock-out against a store with one open
entry. -/
theorem C3_clockOut_contract_witness :
    ((¬ ∃ e, e ∈ openStoreW.entries ∧ entryMatches 1 "2026-03-10" e = true ∧
        e.check_in.isSome = true) →
      (clockOut openStoreW 1 "2026-03-10" "17:30" none (some "lunch")).2 =
        Except.error ApiError.notClockedIn ∧
      (clockOut openStoreW 1 "2026-03-10" "17:30" none (some "lunch")).1 = openStoreW) ∧
    (∀ e, latestEntry openStoreW 1 "2026-03-10" = some e → e.check_out.isSome = true →
      (clockOut openStoreW 1 "2026-03-10" "17:30" none (some "lunch")).2 =
        Except.error ApiError.alreadyClockedOut ∧
      (clockOut openStoreW 1 "2026-03-10" "17:30" none (some "lunch")).1 = openStoreW) ∧
    (∀ e, latestEntry openStoreW 1 "2026-03-10" = some e → e.check_out = none →
      (clockOut openStoreW 1 "2026-03-10" "17:30" none (some "lunch")).2 =
        Except.ok { time := "17:30" } ∧
      latestEntry (clockOut openStoreW 1 "2026-03-10" "17:30" none (some "lunch")).1
          1 "2026-03-10" =
        some { e with check_out := some "17:30", comment := some "lunch",
                      timezone := sqlCoalesce e.timezone (orNull none) }) :=
  C3_clockOut_contract good_openStoreW 1 "2026-03-10" "17:30" none (some "lunch")
    (by decide)

/-! ### C4: timezone is first-write-wins at check-out -/

/-- C4: a successful clock-out, and a toggle that checks out, keep the
stored timezone when it is set and write the supplied one only when the
stored value is NULL; `check_in` and `date` are untouched. -/
theorem C4_timezone_first_write_wins {s : Store} (hg : Good s) (u : Nat) (d t : String)
    (tz c : Option String) (htz : tz ≠ some "") {e : Entry}
    (hle : latestEntry s u d = some e) (hco : e.check_out = none) :
    (∃ e', latestEntry (clockOut s u d t tz c).1 u d = some e' ∧
      e'.check_in = e.check_in ∧ e'.date = e.date ∧
      e'.timezone = (if e.timezone.isSome then e.timezone else tz)) ∧
    (∃ e'', latestEntry (toggle s u d t tz).1 u d = some e'' ∧
      e''.check_in = e.check_in ∧ e''.date = e.date ∧
      e''.timezone = (if e.timezone.isSome then e.timezone else tz)) := by
  rcases latestEntry_mem hle with ⟨hmem, heu, -⟩
  have hci : truthy e.check_in = true := (hg.2.2 e hmem).1
  have hcoF : truthy e.check_out = false := by rw [hco]; rfl
  have htzv : sqlCoalesce e.timezone (orNull tz) =
      (if e.timezone.isSome then e.timezone else tz) := by
    cases e.timezone with
    | some v => rfl
    | none => simp [sqlCoalesce, orNull_eq_self htz]
  constructor
  · rw [clockOut_success hle hci hcoF]
    refine ⟨clockOutSet t tz c e, ?_, rfl, rfl, htzv⟩
    have hf2 : ∀ x, (clockOutSet t tz c x).user_id = x.user_id ∧
        (clockOutSet t tz c x).date = x.date := fun x => ⟨rfl, rfl⟩
    rw [show (updateById s e.id u (clockOutSet t tz c), Except.ok (ClockOutResp.mk t)).1 =
          updateById s e.id u (clockOutSet t tz c) from rfl]
    rw [latestEntry_updateById hf2, hle]
    simp only [Option.map_some']
    unfold applyUpd
    rw [if_pos]
    rw [Bool.and_eq_true]
    exact ⟨by simp, by simp [heu]⟩
  · rw [toggle_open hle hcoF hci]
    refine ⟨toggleSet t tz e, ?_, rfl, rfl, htzv⟩
    have hf2 : ∀ x, (toggleSet t tz x).user_id = x.user_id ∧
        (toggleSet t tz x).date = x.date := fun x => ⟨rfl, rfl⟩
    rw [show (updateById s e.id u (toggleSet t tz), Except.ok (toggleCheckOutResp e t)).1 =
          updateById s e.id u (toggleSet t tz) from rfl]
    rw [latestEntry_updateById hf2, hle]
    simp only [Option.map_some']
    unfold applyUpd
    rw [if_pos]
    rw [Bool.and_eq_true]
    exact ⟨by simp, by simp [heu]⟩

/-- Witness for C4 at a concrete open entry with no stored timezone. -/
theorem C4_timezone_first_write_wins_witness :
    (∃ e', latestEntry (clockOut openStoreW 1 "2026-03-10" "17:30"
        (some "Europe/Vienna") none).1 1 "2026-03-10" = some e' ∧
      e'.check_in = some "09:00" ∧ e'.date = "2026-03-10" ∧
      e'.timezone = some "Europe/Vienna") ∧
    (∃ e'', latestEntry (toggle openStoreW 1 "2026-03-10" "17:30"
        (some "Europe/Vienna")).1 1 "2026-03-10" = some e'' ∧
      e''.check_in = some "09:00" ∧ e''.date = "2026-03-10" ∧
      e''.timezone = some "Europe/Vienna") :=
  @C4_timezone_first_write_wins openStoreW good_openStoreW 1 "2026-03-10" "17:30"
    (some "Europe/Vienna") none (by decide) entryW (by decide) (by decide)

/-! ### C5: the toggle duration formula -/

/-- C5 counterexample: a toggle check-out at 09:30 against a 10:00 check-in
produces the duration string `-1h -30m` (JavaScript `%` keeps the sign of
the dividend), while the claimed floor/mod formula yields `-1h 30m`. -/
theorem C5_counterexample :
    (toggle openStore1000 1 "2026-03-10" "09:30" none).2 =
      Except.ok { action := "check-out", time := "09:30", entryId := 1,
                  checkIn := some "10:00", checkOut := some "09:30",
                  duration := some "-1h -30m",
                  lastComment := none, lastCommentDate := none } ∧
    specDuration "10:00" "09:30" = "-1h 30m" ∧
    some "-1h -30m" ≠ some (specDuration "10:00" "09:30") := by
  refine ⟨by rfl, by decide, by decide⟩

theorem tmod_sixty_eq_emod {a : Int} (h : 0 ≤ a) : Int.tmod a 60 = Int.emod a 60 := by
  rcases Int.eq_ofNat_of_zero_le h with ⟨m, rfl⟩
  rfl

/-- C5 amended: the toggle check-out duration is `"{h}h {m}m"` with
`h = ⌊diff / 60⌋` and `m` the JavaScript remainder of `diff` by 60 (which
keeps the sign of `diff`); whenever the check-out minute count is at least
the check-in minute count this coincides with the claimed floor/mod
formula, the minutes decompose as `diff = 60·h + m`, and the 09:00→17:30
scenario yields `8h 30m`. -/
theorem C5_duration_amended {s : Store} (hg : Good s) (u : Nat) (d t : String)
    (tz : Option String) (e : Entry) (hle : latestEntry s u d = some e)
    (hco : e.check_out = none)
    (hnn : 0 ≤ totalMinutes (e.check_in.getD "") t) :
    (∃ r, (toggle s u d t tz).2 = Except.ok r ∧
      r.duration = some (durationHM (e.check_in.getD "") t) ∧
      durationHM (e.check_in.getD "") t = specDuration (e.check_in.getD "") t ∧
      totalMinutes (e.check_in.getD "") t =
        60 * Int.fdiv (totalMinutes (e.check_in.getD "") t) 60 +
          Int.emod (totalMinutes (e.check_in.getD "") t) 60) ∧
    durationHM "09:00" "17:30" = "8h 30m" := by
  rcases latestEntry_mem hle with ⟨hmem, -, -⟩
  have hci : truthy e.check_in = true := (hg.2.2 e hmem).1
  have hcoF : truthy e.check_out = false := by rw [hco]; rfl
  refine ⟨⟨toggleCheckOutResp e t, ?_, rfl, ?_, ?_⟩, by decide⟩
  · rw [toggle_open hle hcoF hci]
  · simp only [durationHM, specDuration, tmod_sixty_eq_emod hnn]
  · have h1 : (totalMinutes (e.check_in.getD "") t).fdiv 60 =
        totalMinutes (e.check_in.getD "") t / 60 := Int.fdiv_eq_ediv _ (by norm_num)
    rw [h1]
    have h2 := Int.ediv_add_emod (totalMinutes (e.check_in.getD "") t) 60
    have h3 : Int.emod (totalMinutes (e.check_in.getD "") t) 60 =
        totalMinutes (e.check_in.getD "") t % 60 := rfl
    rw [h3]
    omega

/-- Witness for the amended C5: the spec's own 09:00 → 17:30 scenario. -/
theorem C5_duration_amended_witness :
    (∃ r, (toggle openStoreW 1 "2026-03-10" "17:30" none).2 = Except.ok r ∧
      r.duration = some (durationHM (entryW.check_in.getD "") "17:30") ∧
      durationHM (entryW.check_in.getD "") "17:30" =
        specDuration (entryW.check_in.getD "") "17:30" ∧
      totalMinutes (entryW.check_in.getD "") "17:30" =
        60 * Int.fdiv (totalMinutes (entryW.check_in.getD "") "17:30") 60 +
          Int.emod (totalMinutes (entryW.check_in.getD "") "17:30") 60) ∧
    durationHM "09:00" "17:30" = "8h 30m" :=
  C5_duration_amended good_openStoreW 1 "2026-03-10" "17:30" none entryW
    (by decide) (by decide) (by decide)

/-- After an UPDATE that keeps user and date, the latest entry of the
updated (user, date) is the transformed row. -/
theorem latestEntry_after_set {s : Store} {u : Nat} {d : String} {e : Entry}
    (hle : latestEntry s u d = some e) {f : Entry → Entry}
    (hf : ∀ x, (f x).user_id = x.user_id ∧ (f x).date = x.date) :
    latestEntry (updateById s e.id u f) u d = some (f e) := by
  rcases latestEntry_mem hle with ⟨-, heu, -⟩
  rw [latestEntry_updateById hf, hle]
  simp only [Option.map_some']
  unfold applyUpd
  rw [if_pos]
  rw [Bool.and_eq_true]
  exact ⟨by simp, by simp [heu]⟩

/-! ### C10: the `Unknown state` branch is unreachable -/

/-- C10: against any store produced only by clock-in, clock-out and toggle,
a toggle always answers with the `check-in` or `check-out` action — the
`Unknown state` fallback cannot fire, because every inserted row has a
truthy `check_in` and no lifecycle operation clears it. -/
theorem C10_unknown_state_unreachable (ops : List Op)
    (hv : ∀ op ∈ ops, op.validTime) (u : Nat) (d t : String) (tz : Option String) :
    ∃ r, (toggle (runOps ops) u d t tz).2 = Except.ok r ∧
      (r.action = "check-in" ∨ r.action = "check-out") := by
  have hg := good_runOps hv
  cases hle : latestEntry (runOps ops) u d with
  | none =>
      rw [toggle_none hle]
      exact ⟨_, rfl, Or.inl rfl⟩
  | some e =>
      have hci : truthy e.check_in = true := (hg.2.2 e (latestEntry_mem hle).1).1
      cases hco : truthy e.check_out with
      | true =>
          rw [toggle_closed hle hco]
          exact ⟨_, rfl, Or.inl rfl⟩
      | false =>
          rw [toggle_open hle hco hci]
          exact ⟨_, rfl, Or.inr rfl⟩

/-- Witness for C10: a toggle against the store left by one earlier toggle. -/
theorem C10_unknown_state_unreachable_witness :
    ∃ r, (toggle (runOps [Op.toggle 1 "2026-03-10" "09:00" none]) 1 "2026-03-10"
        "17:30" none).2 = Except.ok r ∧
      (r.action = "check-in" ∨ r.action = "check-out") :=
  C10_unknown_state_unreachable [Op.toggle 1 "2026-03-10" "09:00" none]
    (by
      intro op hop
      rw [List.mem_singleton] at hop
      subst hop
      exact (by decide : ("09:00" : String) ≠ ""))
    1 "2026-03-10" "17:30" none

/-! ### C1: the single-open-entry invariant -/

/-- C1: starting from the empty store, every sequence of clock-in,
clock-out and toggle operations leaves at most one open entry per
(user, date); a clock-in (or toggle check-in) insert happens only when the
latest entry is absent or closed; a successful clock-out (or toggle
check-out) closes the latest entry. -/
theorem C1_at_most_one_open (ops : List Op) (hv : ∀ op ∈ ops, op.validTime)
    (u : Nat) (d t : String) (tz c : Option String) (ht : t ≠ "") :
    openCount (runOps ops) u d ≤ 1 ∧
    (∀ r, (clockIn (runOps ops) u d t tz).2 = Except.ok r →
      latestEntry (runOps ops) u d = none ∨
      ∃ e, latestEntry (runOps ops) u d = some e ∧ truthy e.check_out = true) ∧
    (∀ r, (toggle (runOps ops) u d t tz).2 = Except.ok r → r.action = "check-in" →
      latestEntry (runOps ops) u d = none ∨
      ∃ e, latestEntry (runOps ops) u d = some e ∧ truthy e.check_out = true) ∧
    (∀ r, (clockOut (runOps ops) u d t tz c).2 = Except.ok r →
      ∃ e, latestEntry (runOps ops) u d = some e ∧ isOpen e = true ∧
        latestEntry (clockOut (runOps ops) u d t tz c).1 u d =
          some (clockOutSet t tz c e) ∧ isOpen (clockOutSet t tz c e) = false) ∧
    (∀ r, (toggle (runOps ops) u d t tz).2 = Except.ok r → r.action = "check-out" →
      ∃ e, latestEntry (runOps ops) u d = some e ∧ isOpen e = true ∧
        latestEntry (toggle (runOps ops) u d t tz).1 u d =
          some (toggleSet t tz e) ∧ isOpen (toggleSet t tz e) = false) := by
  have hg := good_runOps hv
  refine ⟨openCount_le_one hg u d, ?_, ?_, ?_, ?_⟩
  · intro r hr
    cases hle : latestEntry (runOps ops) u d with
    | none => exact Or.inl rfl
    | some e =>
        have hci : truthy e.check_in = true := (hg.2.2 e (latestEntry_mem hle).1).1
        cases hco : truthy e.check_out with
        | true => exact Or.inr ⟨e, rfl, hco⟩
        | false =>
            have ho : isOpen e = true := by
              unfold isOpen
              rw [hci, hco]
              rfl
            rw [clockIn_open hle ho] at hr
            cases hr
  · intro r hr hact
    cases hle : latestEntry (runOps ops) u d with
    | none => exact Or.inl rfl
    | some e =>
        have hci : truthy e.check_in = true := (hg.2.2 e (latestEntry_mem hle).1).1
        cases hco : truthy e.check_out with
        | true => exact Or.inr ⟨e, rfl, hco⟩
        | false =>
            rw [toggle_open hle hco hci] at hr
            have hre : r = toggleCheckOutResp e t := (Except.ok.inj hr).symm
            rw [hre] at hact
            exact absurd (show ("check-out" : String) = "check-in" from hact) (by decide)
  · intro r hr
    cases hle : latestEntry (runOps ops) u d with
    | none =>
        rw [clockOut_none hle] at hr
        cases hr
    | some e =>
        have hci : truthy e.check_in = true := (hg.2.2 e (latestEntry_mem hle).1).1
        cases hco : truthy e.check_out with
        | true =>
            rw [clockOut_alreadyOut hle hci hco] at hr
            cases hr
        | false =>
            have ho : isOpen e = true := by
              unfold isOpen
              rw [hci, hco]
              rfl
            refine ⟨e, rfl, ho, ?_, ?_⟩
            · rw [clockOut_success hle hci hco]
              exact latestEntry_after_set hle fun x => ⟨rfl, rfl⟩
            · unfold isOpen clockOutSet
              simp [truthy, ht]
  · intro r hr hact
    cases hle : latestEntry (runOps ops) u d with
    | none =>
        rw [toggle_none hle] at hr
        have hre : r = toggleCheckInResp (runOps ops) u d t tz := (Except.ok.inj hr).symm
        rw [hre] at hact
        exact absurd (show ("check-in" : String) = "check-out" from hact) (by decide)
    | some e =>
        have hci : truthy e.check_in = true := (hg.2.2 e (latestEntry_mem hle).1).1
        cases hco : truthy e.check_out with
        | true =>
            rw [toggle_closed hle hco] at hr
            have hre : r = toggleCheckInResp (runOps ops) u d t tz := (Except.ok.inj hr).symm
            rw [hre] at hact
            exact absurd (show ("check-in" : String) = "check-out" from hact) (by decide)
        | false =>
            have ho : isOpen e = true := by
              unfold isOpen
              rw [hci, hco]
              rfl
            refine ⟨e, rfl, ho, ?_, ?_⟩
            · rw [toggle_open hle hco hci]
              exact latestEntry_after_set hle fun x => ⟨rfl, rfl⟩
            · unfold isOpen toggleSet
              simp [truthy, ht]

/-- Witness for C1 after one toggle, with a concrete clock-out request. -/
theorem C1_at_most_one_open_witness :
    openCount (runOps [Op.toggle 1 "2026-03-10" "09:00" none]) 1 "2026-03-10" ≤ 1 ∧
    (∀ r, (clockIn (runOps [Op.toggle 1 "2026-03-10" "09:00" none]) 1 "2026-03-10"
        "17:30" none).2 = Except.ok r →
      latestEntry (runOps [Op.toggle 1 "2026-03-10" "09:00" none]) 1 "2026-03-10" = none ∨
      ∃ e, latestEntry (runOps [Op.toggle 1 "2026-03-10" "09:00" none]) 1 "2026-03-10" =
          some e ∧ truthy e.check_out = true) ∧
    (∀ r, (toggle (runOps [Op.toggle 1 "2026-03-10" "09:00" none]) 1 "2026-03-10"
        "17:30" none).2 = Except.ok r → r.action = "check-in" →
      latestEntry (runOps [Op.toggle 1 "2026-03-10" "09:00" none]) 1 "2026-03-10" = none ∨
      ∃ e, latestEntry (runOps [Op.toggle 1 "2026-03-10" "09:00" none]) 1 "2026-03-10" =
          some e ∧ truthy e.check_out = true) ∧
    (∀ r, (clockOut (runOps [Op.toggle 1 "2026-03-10" "09:00" none]) 1 "2026-03-10"
        "17:30" none none).2 = Except.ok r →
      ∃ e, latestEntry (runOps [Op.toggle 1 "2026-03-10" "09:00" none]) 1 "2026-03-10" =
          some e ∧ isOpen e = true ∧
        latestEntry (clockOut (runOps [Op.toggle 1 "2026-03-10" "09:00" none]) 1
            "2026-03-10" "17:30" none none).1 1 "2026-03-10" =
          some (clockOutSet "17:30" none none e) ∧
        isOpen (clockOutSet "17:30" none none e) = false) ∧
    (∀ r, (toggle (runOps [Op.toggle 1 "2026-03-10" "09:00" none]) 1 "2026-03-10"
        "17:30" none).2 = Except.ok r → r.action = "check-out" →
      ∃ e, latestEntry (runOps [Op.toggle 1 "2026-03-10" "09:00" none]) 1 "2026-03-10" =
          some e ∧ isOpen e = true ∧
        latestEntry (toggle (runOps [Op.toggle 1 "2026-03-10" "09:00" none]) 1
            "2026-03-10" "17:30" none).1 1 "2026-03-10" =
          some (toggleSet "17:30" none e) ∧
        isOpen (toggleSet "17:30" none e) = false) :=
  C1_at_most_one_open [Op.toggle 1 "2026-03-10" "09:00" none]
    (by
      intro op hop
      rw [List.mem_singleton] at hop
      subst hop
      exact (by decide : ("09:00" : String) ≠ ""))
    1 "2026-03-10" "17:30" none none (by decide)

/-! ### The most-recent-comment order -/

theorem charsLt_irrefl : ∀ l : List Char, charsLt l l = false := by
  intro l
  induction l with
  | nil => rfl
  | cons a as ih =>
      unfold charsLt
      rw [if_neg (lt_irrefl _), if_neg (lt_irrefl _)]
      exact ih

theorem strLt_irrefl (x : String) : strLt x x = false :=
  charsLt_irrefl x.data

theorem LexLE.refl (x : Entry) : LexLE x x :=
  ⟨strLt_irrefl x.date, fun _ => le_refl x.id⟩

theorem LexLE.trans {x y z : Entry} (h1 : LexLE x y) (h2 : LexLE y z) : LexLE x z := by
  rcases h1 with ⟨a1, a2⟩
  rcases h2 with ⟨b1, b2⟩
  constructor
  · cases hzx : strLt z.date x.date with
    | false => rfl
    | true =>
        exfalso
        cases hxy : strLt x.date y.date with
        | true =>
            have hzy := strLt_trans hzx hxy
            rw [hzy] at b1
            exact Bool.noConfusion b1
        | false =>
            have hd : x.date = y.date := strLt_antisymm hxy a1
            rw [← hd] at b1
            rw [hzx] at b1
            exact Bool.noConfusion b1
  · intro hxz
    have b1' : strLt x.date y.date = false := by
      rw [← hxz] at b1
      exact b1
    have hd : x.date = y.date := strLt_antisymm b1' a1
    exact le_trans (a2 hd) (b2 (hd ▸ hxz))

theorem pickLater_cases (a b : Entry) : pickLater a b = a ∨ pickLater a b = b := by
  unfold pickLater
  split
  · exact Or.inr rfl
  · split
    · exact Or.inr rfl
    · exact Or.inl rfl

theorem LexLE_left_pickLater (a b : Entry) : LexLE a (pickLater a b) := by
  unfold pickLater
  split
  · rename_i hlt
    constructor
    · cases h : strLt b.date a.date with
      | false => rfl
      | true =>
          have habs := strLt_trans hlt h
          rw [strLt_irrefl] at habs
          exact Bool.noConfusion habs
    · intro hd
      rw [hd, strLt_irrefl] at hlt
      exact Bool.noConfusion hlt
  · split
    · rename_i hcond
      exact ⟨by rw [hcond.1, strLt_irrefl], fun _ => le_of_lt hcond.2⟩
    · exact LexLE.refl a

theorem LexLE_right_pickLater (a b : Entry) : LexLE b (pickLater a b) := by
  unfold pickLater
  split
  · exact LexLE.refl b
  · split
    · exact LexLE.refl b
    · rename_i hnlt hncond
      constructor
      · cases h : strLt a.date b.date with
        | false => rfl
        | true => exact absurd h hnlt
      · intro hd
        by_contra hgt
        exact hncond ⟨hd.symm, Nat.lt_of_not_le hgt⟩

theorem foldl_pickLater_spec : ∀ (l : List Entry) (a : Entry),
    l.foldl pickLater a ∈ a :: l ∧ ∀ x ∈ a :: l, LexLE x (l.foldl pickLater a) := by
  intro l
  induction l with
  | nil =>
      intro a
      refine ⟨List.mem_cons_self _ _, ?_⟩
      intro x hx
      rw [List.mem_singleton] at hx
      subst hx
      exact LexLE.refl x
  | cons b l ih =>
      intro a
      rw [List.foldl_cons]
      rcases ih (pickLater a b) with ⟨hmem, hall⟩
      constructor
      · rcases List.mem_cons.mp hmem with h | h
        · rcases pickLater_cases a b with hc | hc
          · rw [h, hc]
            exact List.mem_cons_self _ _
          · rw [h, hc]
            exact List.mem_cons_of_mem _ (List.mem_cons_self _ _)
        · exact List.mem_cons_of_mem _ (List.mem_cons_of_mem _ h)
      · intro x hx
        rcases List.mem_cons.mp hx with rfl | hx'
        · exact (LexLE_left_pickLater x b).trans (hall _ (List.mem_cons_self _ _))
        · rcases List.mem_cons.mp hx' with rfl | hx''
          · exact (LexLE_right_pickLater a x).trans (hall _ (List.mem_cons_self _ _))
          · exact hall x (List.mem_cons_of_mem _ hx'')

theorem hasComment_iff {u : Nat} {e : Entry} :
    hasComment u e = true ↔
      e.user_id = u ∧ ∃ cm, e.comment = some cm ∧ cm ≠ "" := by
  unfold hasComment
  cases hc : e.comment with
  | none => simp
  | some cm => simp [Bool.and_eq_true]

theorem lastCommentEntry_isMostRecent (s : Store) (u : Nat) :
    IsMostRecentComment s u ((lastCommentEntry s u).bind Entry.comment) := by
  unfold lastCommentEntry
  cases hf : s.entries.filter (hasComment u) with
  | nil =>
      show IsMostRecentComment s u none
      intro e he
      cases hc : hasComment u e with
      | false => rfl
      | true =>
          have hmem : e ∈ s.entries.filter (hasComment u) := List.mem_filter.mpr ⟨he, hc⟩
          rw [hf] at hmem
          cases hmem
  | cons b l =>
      rcases foldl_pickLater_spec l b with ⟨hmem, hall⟩
      have hmem' : l.foldl pickLater b ∈ s.entries.filter (hasComment u) := by
        rw [hf]
        exact hmem
      rcases List.mem_filter.mp hmem' with ⟨hmemE, hhc⟩
      rcases hasComment_iff.mp hhc with ⟨-, cm, hcm, -⟩
      show IsMostRecentComment s u ((some (l.foldl pickLater b)).bind Entry.comment)
      have hbind : (some (l.foldl pickLater b)).bind Entry.comment = some cm := by
        show (l.foldl pickLater b).comment = some cm
        exact hcm
      rw [hbind]
      refine ⟨l.foldl pickLater b, hmemE, hhc, hcm, ?_⟩
      intro e' he' hc'
      have hmem2 : e' ∈ s.entries.filter (hasComment u) := List.mem_filter.mpr ⟨he', hc'⟩
      rw [hf] at hmem2
      exact hall e' hmem2

/-- The freshly inserted row has no comment, so the carry-over query is
unchanged by the insert. -/
theorem lastCommentEntry_insert (s : Store) (u' u : Nat) (d t : String)
    (tz : Option String) :
    lastCommentEntry (insertEntry s u d t tz).1 u' = lastCommentEntry s u' := by
  unfold lastCommentEntry
  have hE : (insertEntry s u d t tz).1.entries = s.entries ++ [newEntry s u d t tz] := rfl
  rw [hE, List.filter_append]
  rw [show List.filter (hasComment u') [newEntry s u d t tz] = [] from by
    simp [hasComment, newEntry]]
  rw [List.append_nil]

/-! ### C6: the toggle combinator -/

/-- C6: in the `NONE` state a toggle clocks in, answering `check-in`
together with the user's most recent nonempty comment (any date, latest
date then latest id first); in the `OPEN` state it clocks out, answering
`check-out`; two sequential toggles from `NONE` drive the state
`NONE → OPEN → NONE` and never leave two open entries. -/
theorem C6_toggle_behaviour {s : Store} (hg : Good s) (u : Nat) (d t t' : String)
    (tz tz' : Option String) (ht : t ≠ "") (ht' : t' ≠ "") :
    (stateOf s u d = DayState.NONE →
      ∃ r, (toggle s u d t tz).2 = Except.ok r ∧ r.action = "check-in" ∧
        (toggle s u d t tz).1 = (clockIn s u d t tz).1 ∧
        IsMostRecentComment s u r.lastComment) ∧
    (stateOf s u d = DayState.OPEN →
      ∃ r, (toggle s u d t tz).2 = Except.ok r ∧ r.action = "check-out") ∧
    (stateOf s u d = DayState.NONE →
      stateOf (toggle s u d t tz).1 u d = DayState.OPEN ∧
      stateOf (toggle (toggle s u d t tz).1 u d t' tz').1 u d = DayState.NONE ∧
      openCount (toggle s u d t tz).1 u d ≤ 1 ∧
      openCount (toggle (toggle s u d t tz).1 u d t' tz').1 u d ≤ 1) := by
  have hlcomm : IsMostRecentComment s u
      ((lastCommentEntry (insertEntry s u d t (orNull tz)).1 u).bind Entry.comment) := by
    rw [lastCommentEntry_insert]
    exact lastCommentEntry_isMostRecent s u
  refine ⟨?_, ?_, ?_⟩
  · intro hN
    rcases stateOf_none_cases hg hN with hle | ⟨e, hle, hco⟩
    · rw [toggle_none hle, clockIn_none hle]
      exact ⟨toggleCheckInResp s u d t tz, rfl, rfl, rfl, hlcomm⟩
    · have ho : isOpen e = false := by
        unfold isOpen
        rw [hco]
        simp
      rw [toggle_closed hle hco, clockIn_notOpen hle ho]
      exact ⟨toggleCheckInResp s u d t tz, rfl, rfl, rfl, hlcomm⟩
  · intro hO
    rcases stateOf_open_elim hO with ⟨e, hle, hci, hco⟩
    rw [toggle_open hle hco hci]
    exact ⟨toggleCheckOutResp e t, rfl, rfl⟩
  · intro hN
    have hs1 : (toggle s u d t tz).1 = (insertEntry s u d t (orNull tz)).1 := by
      rcases stateOf_none_cases hg hN with hle | ⟨e, hle, hco⟩
      · rw [toggle_none hle]
      · rw [toggle_closed hle hco]
    have hle1 : latestEntry (insertEntry s u d t (orNull tz)).1 u d =
        some (newEntry s u d t (orNull tz)) := by
      rw [latestEntry_insert, if_pos ⟨rfl, rfl⟩]
    have hciN : truthy (newEntry s u d t (orNull tz)).check_in = true := by
      simp [newEntry, truthy, ht]
    have hcoN : truthy (newEntry s u d t (orNull tz)).check_out = false := rfl
    have hg1 : Good (toggle s u d t tz).1 := good_toggle hg ht
    have hg2 : Good (toggle (toggle s u d t tz).1 u d t' tz').1 := good_toggle hg1 ht'
    refine ⟨?_, ?_, openCount_le_one hg1 u d, openCount_le_one hg2 u d⟩
    · rw [hs1]
      exact stateOf_after_insert ht
    · rw [hs1]
      rw [toggle_open hle1 hcoN hciN]
      show stateOf (updateById (insertEntry s u d t (orNull tz)).1
          (newEntry s u d t (orNull tz)).id u (toggleSet t' tz')) u d = DayState.NONE
      apply stateOf_some_closed
        (@latestEntry_after_set (insertEntry s u d t (orNull tz)).1 u d
          (newEntry s u d t (orNull tz)) hle1 (toggleSet t' tz') fun x => ⟨rfl, rfl⟩)
      unfold isOpen toggleSet
      simp [truthy, ht']

theorem good_closedStoreW : Good closedStoreW := by
  unfold Good WS OpenIsLatest TimesOk
  refine ⟨⟨?_, ?_⟩, ?_, ?_⟩ <;> decide

/-- Witness for C6: two toggles on the next day against a store that holds
a closed, commented entry. -/
theorem C6_toggle_behaviour_witness :
    (stateOf closedStoreW 1 "2026-03-10" = DayState.NONE →
      ∃ r, (toggle closedStoreW 1 "2026-03-10" "09:00" none).2 = Except.ok r ∧
        r.action = "check-in" ∧
        (toggle closedStoreW 1 "2026-03-10" "09:00" none).1 =
          (clockIn closedStoreW 1 "2026-03-10" "09:00" none).1 ∧
        IsMostRecentComment closedStoreW 1 r.lastComment) ∧
    (stateOf closedStoreW 1 "2026-03-10" = DayState.OPEN →
      ∃ r, (toggle closedStoreW 1 "2026-03-10" "09:00" none).2 = Except.ok r ∧
        r.action = "check-out") ∧
    (stateOf closedStoreW 1 "2026-03-10" = DayState.NONE →
      stateOf (toggle closedStoreW 1 "2026-03-10" "09:00" none).1 1 "2026-03-10" =
        DayState.OPEN ∧
      stateOf (toggle (toggle closedStoreW 1 "2026-03-10" "09:00" none).1 1
          "2026-03-10" "17:30" none).1 1 "2026-03-10" = DayState.NONE ∧
      openCount (toggle closedStoreW 1 "2026-03-10" "09:00" none).1 1 "2026-03-10" ≤ 1 ∧
      openCount (toggle (toggle closedStoreW 1 "2026-03-10" "09:00" none).1 1
          "2026-03-10" "17:30" none).1 1 "2026-03-10" ≤ 1) :=
  C6_toggle_behaviour good_closedStoreW 1 "2026-03-10" "09:00" "17:30" none none
    (by decide) (by decide)

/-! ### C7: report month groups and day rows -/

theorem mem_monthsFrom : ∀ (k sy sm y m : Nat), 1 ≤ sm → sm ≤ 12 →
    ((y, m) ∈ monthsFrom sy sm k ↔
      1 ≤ m ∧ m ≤ 12 ∧ sy * 12 + sm ≤ y * 12 + m ∧ y * 12 + m < sy * 12 + sm + k) := by
  intro k
  induction k with
  | zero =>
      intro sy sm y m h1 h2
      show (y, m) ∈ ([] : List (Nat × Nat)) ↔ _
      simp only [List.not_mem_nil, false_iff]
      omega
  | succ k ih =>
      intro sy sm y m h1 h2
      rw [show monthsFrom sy sm (k + 1) =
            (sy, sm) :: (if sm = 12 then monthsFrom (sy + 1) 1 k
              else monthsFrom sy (sm + 1) k) from rfl]
      rw [List.mem_cons, Prod.mk.injEq]
      by_cases h12 : sm = 12
      · rw [if_pos h12, ih (sy + 1) 1 y m (by omega) (by omega)]
        omega
      · rw [if_neg h12, ih sy (sm + 1) y m (by omega) (by omega)]
        omega

theorem mem_monthsInRange {sy sm ey em : Nat} (h1 : 1 ≤ sm) (h2 : sm ≤ 12)
    (y m : Nat) :
    (y, m) ∈ monthsInRange sy sm ey em ↔
      1 ≤ m ∧ m ≤ 12 ∧ sy * 12 + sm ≤ y * 12 + m ∧ y * 12 + m ≤ ey * 12 + em := by
  unfold monthsInRange
  rw [mem_monthsFrom _ sy sm y m h1 h2]
  omega

theorem createMonthSheet_rows_length (y m : Nat) (entries : List Entry) :
    (createMonthSheet y m entries).rows.length = daysInMonth y m := by
  show ((monthDays y m).map (fun d => dayRow y m d entries)).length = _
  rw [List.length_map]
  unfold monthDays
  rw [List.length_map, List.length_range]

theorem daysInMonth_bounds (y m : Nat) :
    28 ≤ daysInMonth y m ∧ daysInMonth y m ≤ 31 := by
  unfold daysInMonth
  split
  · split <;> omega
  · split <;> omega

theorem createMonthSheet_rows_get (y m day : Nat) (entries : List Entry)
    (h1 : 1 ≤ day) (h2 : day ≤ daysInMonth y m) :
    (createMonthSheet y m entries).rows[day - 1]? = some (dayRow y m day entries) := by
  show ((monthDays y m).map (fun d => dayRow y m d entries))[day - 1]? = _
  unfold monthDays
  rw [List.getElem?_map, List.getElem?_map, List.getElem?_range (by omega)]
  show some (dayRow y m (day - 1 + 1) entries) = _
  rw [show day - 1 + 1 = day from by omega]

theorem dayRow_no_entry (y m day : Nat) (entries : List Entry)
    (h : entriesMapGet entries (dateString y m day) = none) :
    (dayRow y m day entries).check_in =
      (if dayOfWeek y m day == 0 || dayOfWeek y m day == 6 then "---" else "") ∧
    (dayRow y m day entries).check_out =
      (if dayOfWeek y m day == 0 || dayOfWeek y m day == 6 then "---" else "") := by
  unfold dayRow
  simp only [h]
  cases hw : (dayOfWeek y m day == 0 || dayOfWeek y m day == 6) <;> simp [hw]

theorem generateReport_months (st : Store) (u : Nat) (sd ed : String) :
    generateReport st u sd ed =
      (monthsInRange (parseDate sd).1 (parseDate sd).2.1 (parseDate ed).1
        (parseDate ed).2.1).map
        (fun ym => createMonthSheet ym.1 ym.2 (queryRange st u sd ed)) := rfl

/-- C7: the report builds one month group per calendar month in the range
(months with zero entries included); each group holds exactly one row per
calendar day 1..daysInMonth (hence 28–31 rows even for an empty month); a
day with no entry shows blank check-in/check-out columns unless the day is
a Saturday or Sunday, which show the `---` sentinel. -/
theorem C7_month_groups_day_rows (sy sm ey em : Nat) (entries : List Entry)
    (h1 : 1 ≤ sm) (h2 : sm ≤ 12) :
    (∀ st u sd ed, generateReport st u sd ed =
      (monthsInRange (parseDate sd).1 (parseDate sd).2.1 (parseDate ed).1
        (parseDate ed).2.1).map
        (fun ym => createMonthSheet ym.1 ym.2 (queryRange st u sd ed))) ∧
    (∀ y m, (y, m) ∈ monthsInRange sy sm ey em ↔
      1 ≤ m ∧ m ≤ 12 ∧ sy * 12 + sm ≤ y * 12 + m ∧ y * 12 + m ≤ ey * 12 + em) ∧
    (∀ y m, (createMonthSheet y m entries).rows.length = daysInMonth y m) ∧
    (∀ y m, 28 ≤ daysInMonth y m ∧ daysInMonth y m ≤ 31) ∧
    (∀ y m day, 1 ≤ day → day ≤ daysInMonth y m →
      (createMonthSheet y m entries).rows[day - 1]? = some (dayRow y m day entries)) ∧
    (∀ y m day, entriesMapGet entries (dateString y m day) = none →
      (dayRow y m day entries).check_in =
        (if dayOfWeek y m day == 0 || dayOfWeek y m day == 6 then "---" else "") ∧
      (dayRow y m day entries).check_out =
        (if dayOfWeek y m day == 0 || dayOfWeek y m day == 6 then "---" else "")) :=
  ⟨generateReport_months,
   fun y m => mem_monthsInRange h1 h2 y m,
   fun y m => createMonthSheet_rows_length y m entries,
   fun y m => daysInMonth_bounds y m,
   fun y m day hd1 hd2 => createMonthSheet_rows_get y m day entries hd1 hd2,
   fun y m day h => dayRow_no_entry y m day entries h⟩

/-- Witness for C7: the January–February 2026 export of a user with no
entries produces two month groups, of 31 and 28 day rows. -/
theorem C7_month_groups_day_rows_witness :
    ((∀ st u sd ed, generateReport st u sd ed =
      (monthsInRange (parseDate sd).1 (parseDate sd).2.1 (parseDate ed).1
        (parseDate ed).2.1).map
        (fun ym => createMonthSheet ym.1 ym.2 (queryRange st u sd ed))) ∧
    (∀ y m, (y, m) ∈ monthsInRange 2026 1 2026 2 ↔
      1 ≤ m ∧ m ≤ 12 ∧ 2026 * 12 + 1 ≤ y * 12 + m ∧ y * 12 + m ≤ 2026 * 12 + 2) ∧
    (∀ y m, (createMonthSheet y m ([] : List Entry)).rows.length = daysInMonth y m) ∧
    (∀ y m, 28 ≤ daysInMonth y m ∧ daysInMonth y m ≤ 31) ∧
    (∀ y m day, 1 ≤ day → day ≤ daysInMonth y m →
      (createMonthSheet y m ([] : List Entry)).rows[day - 1]? =
        some (dayRow y m day [])) ∧
    (∀ y m day, entriesMapGet ([] : List Entry) (dateString y m day) = none →
      (dayRow y m day ([] : List Entry)).check_in =
        (if dayOfWeek y m day == 0 || dayOfWeek y m day == 6 then "---" else "") ∧
      (dayRow y m day ([] : List Entry)).check_out =
        (if dayOfWeek y m day == 0 || dayOfWeek y m day == 6 then "---" else ""))) ∧
    (generateMonthRangeReport emptyStore 1 2026 1 2026 2).map
      (fun sh => (sh.year, sh.month, sh.rows.length)) = [(2026, 1, 31), (2026, 2, 28)] :=
  ⟨C7_month_groups_day_rows 2026 1 2026 2 [] (by decide) (by decide), by decide⟩

/-! ### C8: the month TOTAL -/

/-- C8 counterexample: with two closed one-hour entries on the same date,
the sheet total is `1:00` — the date-keyed entries map keeps only the last
entry per date — while the sum over the month's entries is `2:00`. -/
theorem C8_counterexample :
    (createMonthSheet 2026 3 multiShiftEntries).totalRow = "1:00" ∧
    specMonthTotal multiShiftEntries = "2:00" ∧
    (createMonthSheet 2026 3 multiShiftEntries).totalRow ≠
      specMonthTotal multiShiftEntries := by
  refine ⟨by decide, by decide, by decide⟩

theorem truthy_eq_isSome {o : Option String} (h : o ≠ some "") :
    truthy o = o.isSome := by
  cases o with
  | none => rfl
  | some s =>
      show (!(s == "")) = true
      have hs : (s == "") = false := by
        rw [beq_eq_false_iff_ne]
        intro hc
        exact h (by rw [hc])
      rw [hs]
      rfl

theorem string_eq_of_data_eq {a b : String} (h : a.data = b.data) : a = b := by
  cases a
  cases b
  exact congrArg String.mk h

theorem padTwo_inj : ∀ d < 32, ∀ d' < 32,
    padStart2 (toString d) = padStart2 (toString d') → d = d' := by decide

theorem dateString_inj_day {y m d d' : Nat} (hd : d < 32) (hd' : d' < 32)
    (h : dateString y m d = dateString y m d') : d = d' := by
  have hdata := congrArg String.data h
  rw [show dateString y m d =
        (toString y ++ "-" ++ padStart2 (toString m) ++ "-") ++ padStart2 (toString d)
      from by unfold dateString; rw [String.append_assoc]] at hdata
  rw [show dateString y m d' =
        (toString y ++ "-" ++ padStart2 (toString m) ++ "-") ++ padStart2 (toString d')
      from by unfold dateString; rw [String.append_assoc]] at hdata
  rw [String.data_append, String.data_append] at hdata
  have hpd : padStart2 (toString d) = padStart2 (toString d') :=
    string_eq_of_data_eq (List.append_cancel_left hdata)
  exact padTwo_inj d hd d' hd' hpd

theorem mem_monthDays {y m de : Nat} :
    de ∈ monthDays y m ↔ 1 ≤ de ∧ de ≤ daysInMonth y m := by
  unfold monthDays
  constructor
  · intro h
    rcases List.mem_map.mp h with ⟨d, hd, rfl⟩
    rw [List.mem_range] at hd
    omega
  · rintro ⟨hm1, hm2⟩
    exact List.mem_map.mpr ⟨de - 1, List.mem_range.mpr (by omega), by omega⟩

theorem monthDays_nodup (y m : Nat) : (monthDays y m).Nodup := by
  unfold monthDays
  exact (List.nodup_range _).map fun a b h => by omega

theorem foldl_add_sum {α : Type} (f : α → Int) : ∀ (L : List α) (a : Int),
    L.foldl (fun acc d => acc + f d) a = a + (L.map f).sum := by
  intro L
  induction L with
  | nil => intro a; simp
  | cons x xs ih =>
      intro a
      rw [List.foldl_cons, ih, List.map_cons, List.sum_cons]
      ring

theorem dayMinutes_cons (e : Entry) (rest : List Entry) (ds : String)
    (hrest : ∀ x ∈ rest, x.date ≠ e.date)
    (hwfe : e.check_in ≠ some "" ∧ e.check_out ≠ some "") :
    dayMinutes (e :: rest) ds =
      if ds = e.date then entryMinutes e else dayMinutes rest ds := by
  unfold dayMinutes entriesMapGet
  rw [List.filter_cons]
  by_cases hds : ds = e.date
  · rw [if_pos hds]
    have hce : (e.date == ds) = true := by
      rw [hds]
      exact beq_self_eq_true _
    rw [hce]
    have hnone : rest.filter (fun x => x.date == ds) = [] := by
      rw [List.filter_eq_nil_iff]
      intro x hx
      simp only [beq_iff_eq]
      rw [hds]
      exact hrest x hx
    rw [hnone]
    show (if truthy e.check_in && truthy e.check_out then
        totalMinutes (e.check_in.getD "") (e.check_out.getD "")
      else 0) = entryMinutes e
    unfold entryMinutes
    rw [truthy_eq_isSome hwfe.1, truthy_eq_isSome hwfe.2]
  · rw [if_neg hds]
    have hce : (e.date == ds) = false := by
      simp only [beq_eq_false_iff_ne]
      intro hc
      exact hds hc.symm
    rw [hce]
    rfl

theorem sum_map_ite_eq {g : Nat → Int} {c : Int} : ∀ (L : List Nat) (de : Nat),
    L.Nodup → de ∈ L → g de = 0 →
    (L.map (fun d => if d = de then c else g d)).sum = c + (L.map g).sum := by
  intro L
  induction L with
  | nil =>
      intro de _ hmem
      cases hmem
  | cons x xs ih =>
      intro de hnd hmem hg0
      rcases List.nodup_cons.mp hnd with ⟨hx, hxs⟩
      rcases List.mem_cons.mp hmem with rfl | hmem'
      · rw [List.map_cons, List.map_cons, List.sum_cons, List.sum_cons, if_pos rfl]
        have hcong : ∀ d ∈ xs, (if d = de then c else g d) = g d := by
          intro d hd
          rw [if_neg]
          intro hde
          rw [hde] at hd
          exact hx hd
        rw [List.map_congr_left hcong]
        rw [hg0]
        ring
      · have hxne : x ≠ de := fun he => hx (he ▸ hmem')
        rw [List.map_cons, List.map_cons, List.sum_cons, List.sum_cons, if_neg hxne,
          ih de hxs hmem' hg0]
        ring

theorem sum_dayMinutes_eq : ∀ (entries : List Entry) (y m : Nat),
    (∀ e ∈ entries, ∃ de, 1 ≤ de ∧ de ≤ daysInMonth y m ∧ e.date = dateString y m de) →
    entries.Pairwise (fun a b => a.date ≠ b.date) →
    (∀ e ∈ entries, e.check_in ≠ some "" ∧ e.check_out ≠ some "") →
    ((monthDays y m).map (fun d => dayMinutes entries (dateString y m d))).sum =
      (entries.map entryMinutes).sum := by
  intro entries
  induction entries with
  | nil =>
      intro y m _ _ _
      show (List.map (fun d => dayMinutes [] (dateString y m d)) (monthDays y m)).sum = 0
      generalize monthDays y m = L
      induction L with
      | nil => rfl
      | cons a as iih =>
          rw [List.map_cons, List.sum_cons, iih,
            show dayMinutes [] (dateString y m a) = 0 from rfl]
          rfl
  | cons e rest ih =>
      intro y m hdates hdist hwf
      rcases hdates e (List.mem_cons_self _ _) with ⟨de, hde1, hde2, hdeq⟩
      rcases List.pairwise_cons.mp hdist with ⟨hrest0, hdist'⟩
      have hrest : ∀ x ∈ rest, x.date ≠ e.date := fun x hx h => hrest0 x hx h.symm
      have hwfe := hwf e (List.mem_cons_self _ _)
      have hle31 := (daysInMonth_bounds y m).2
      have hstep : ∀ d ∈ monthDays y m,
          dayMinutes (e :: rest) (dateString y m d) =
            (fun d => if d = de then entryMinutes e
              else dayMinutes rest (dateString y m d)) d := by
        intro d hd
        rcases mem_monthDays.mp hd with ⟨hd1, hd2⟩
        show dayMinutes (e :: rest) (dateString y m d) =
          if d = de then entryMinutes e else dayMinutes rest (dateString y m d)
        rw [dayMinutes_cons e rest _ hrest hwfe, hdeq]
        by_cases hdd : d = de
        · rw [if_pos (by rw [hdd]), if_pos hdd]
        · rw [if_neg (fun hc => hdd (dateString_inj_day (by omega) (by omega) hc)),
            if_neg hdd]
      rw [List.map_congr_left hstep]
      rw [sum_map_ite_eq (monthDays y m) de (monthDays_nodup y m)
        (mem_monthDays.mpr ⟨hde1, hde2⟩) ?_]
      · rw [List.map_cons, List.sum_cons,
          ih y m (fun x hx => hdates x (List.mem_cons_of_mem _ hx)) hdist'
            (fun x hx => hwf x (List.mem_cons_of_mem _ hx))]
      · rw [← hdeq]
        unfold dayMinutes entriesMapGet
        rw [show rest.filter (fun x => x.date == e.date) = [] from by
          rw [List.filter_eq_nil_iff]
          intro x hx
          simp only [beq_iff_eq]
          exact hrest x hx]
        rfl

/-- C8 amended: the month TOTAL equals the claimed per-entry sum whenever
the month's entries lie on pairwise distinct dates of that month (the
date-keyed lookup map retains only the last entry per date, so duplicate
dates are collapsed); entries missing a time contribute zero. -/
theorem C8_month_total_amended (y m : Nat) (entries : List Entry)
    (hdates : ∀ e ∈ entries, ∃ de, 1 ≤ de ∧ de ≤ daysInMonth y m ∧
      e.date = dateString y m de)
    (hdistinct : entries.Pairwise (fun a b => a.date ≠ b.date))
    (hwf : ∀ e ∈ entries, e.check_in ≠ some "" ∧ e.check_out ≠ some "") :
    (createMonthSheet y m entries).totalRow = specMonthTotal entries := by
  rw [show (createMonthSheet y m entries).totalRow =
        formatTotal ((monthDays y m).foldl
          (fun acc d => acc + dayMinutes entries (dateString y m d)) 0) from rfl]
  rw [foldl_add_sum (fun d => dayMinutes entries (dateString y m d)) (monthDays y m) 0]
  rw [sum_dayMinutes_eq entries y m hdates hdistinct hwf]
  unfold specMonthTotal
  rw [zero_add]

/-- Witness for the amended C8: one 09:00–17:30 entry in March 2026 gives a
TOTAL of `8:30`, matching the per-entry sum. -/
theorem C8_month_total_amended_witness :
    (createMonthSheet 2026 3
        [{ id := 1, user_id := 1, date := "2026-03-10", check_in := some "09:00",
           check_out := some "17:30", comment := none, timezone := none }]).totalRow =
      specMonthTotal
        [{ id := 1, user_id := 1, date := "2026-03-10", check_in := some "09:00",
           check_out := some "17:30", comment := none, timezone := none }] ∧
    specMonthTotal
        [{ id := 1, user_id := 1, date := "2026-03-10", check_in := some "09:00",
           check_out := some "17:30", comment := none, timezone := none }] = "8:30" :=
  ⟨C8_month_total_amended 2026 3 _
    (by
      intro e he
      rw [List.mem_singleton] at he
      subst he
      exact ⟨10, by decide, by decide, by decide⟩)
    (List.pairwise_singleton _ _)
    (by decide),
   by decide⟩

end TimeTracker
